import Mathlib

/-!
Shallow embedding of the VFLib listener-notification core (vf_Listeners.h)
and of the small peripheral classes the claims touch
(vf_ScopedAudioSampleBuffer.h, the free-store typedefs, the tick typedef).

The repository ships only the header `vf_Listeners.h` for the core: the
member-function bodies of `ListenersBase`, `ListenersBase::Group` and
`ListenersBase::Proxy` live in a `.cpp` file that is not in the tree.
Every definition whose body is missing from the tree is therefore
modelled from the specification's §4 ("COMPONENT DESIGN") and carries a
doc comment that starts with "Modelled from the spec:".  Listener
identities, call-queue identities, Call objects and notification kinds
are represented by natural numbers; a Call is immutable after creation
and is only ever compared by identity, so a `Nat` id is a faithful
stand-in.  The model is sequential: each operation is a function on the
publisher state, and a drain of a call queue executes its FIFO work list
in order, which is exactly the per-queue serial execution the spec's
ordering guarantees quantify over.
-/

namespace VF

/-- From vf_Listeners.h (Group::Entry, spec §3): an Entry binds a
subscriber identity to the tick value at the time of its addition and is
immutable after creation. -/
structure Entry where
  listener : Nat
  timestamp : Nat
deriving DecidableEq

/-- Modelled from the spec: the units of work a Group or a Proxy posts on
a call queue (`CallWork`, `GroupWork`, `GroupWork1` and `Proxy::Work` are
declared in vf_Listeners.h but their bodies are not in the tree).
`groupCall c t` invokes `do_call (c, t)`; `groupCall1 c t l` invokes
`do_call1 (c, t, l)`; `proxyCall k t` is the Proxy work unit that drains
the pending-Call slot of kind `k` for this Group, where `t` is the tick
captured when the work unit was enqueued (spec §4.4). -/
inductive Work where
  | groupCall (c : Nat) (t : Nat)
  | groupCall1 (c : Nat) (t : Nat) (l : Nat)
  | proxyCall (kind : Nat) (t : Nat)
deriving DecidableEq

/-- From vf_Listeners.h (class Group, spec §3): a per-call-queue set of
Entries.  The group is keyed by the identity of its call queue. -/
structure Group where
  qid : Nat
  entries : List Entry
deriving DecidableEq

/-- Modelled from the spec: a Proxy sub-entry (`Proxy::Entry`, body not in
the tree) holds a back-reference to a Group (here its call-queue key) and
an atomically-swappable pending-Call slot (spec §4.4). -/
structure ProxyEntry where
  qid : Nat
  pending : Option Nat
deriving DecidableEq

/-- From vf_Listeners.h (class Proxy, spec §3/§4.4): a per-notification-kind
coalescing slot with one sub-entry per Group. -/
structure Proxy where
  kind : Nat
  entries : List ProxyEntry
deriving DecidableEq

/-- The call-queue abstraction the core consumes (spec §6): a FIFO serial
executor pinned to one servicing thread.  `thread` is the servicing
thread's identity and `work` the pending FIFO work list. -/
structure Queue where
  qid : Nat
  thread : Nat
  work : List Work
deriving DecidableEq

/-- The state of one publisher (`ListenersBase`, spec §3) together with
its call queues and the observable delivery history: `invocations` logs
each subscriber invocation `(listener, call)` in execution order, and
`released` logs every Call reference that was released without that
reference ever executing (coalescing replacement, targeted miss). -/
structure PubState where
  tick : Nat
  groups : List Group
  proxies : List Proxy
  queues : List Queue
  invocations : List (Nat × Nat)
  released : List Nat
deriving DecidableEq

/-- The trivial listener behaviour: no listener reacts to an invocation
by removing anybody ("remains registered"). -/
def noReact : Nat → Nat → List Nat := fun _ _ => []

/-- `gs.find?` keyed by call-queue identity (the Group set is keyed by
call queue, spec §3). -/
def findGroup (qid : Nat) (gs : List Group) : Option Group :=
  gs.find? (fun g => g.qid == qid)

/-- `ps.find?` keyed by notification-kind identity (spec §3). -/
def findProxy (k : Nat) (ps : List Proxy) : Option Proxy :=
  ps.find? (fun p => p.kind == k)

/-- The Group that contains a given subscriber, if any (spec §4.1,
`call1`/`queue1`: "Finds the Group containing subscriber (if any)"). -/
def findListenerGroup (l : Nat) (gs : List Group) : Option Group :=
  gs.find? (fun g => g.entries.any (fun e => e.listener == l))

/-- Modelled from the spec: `Group::add` under the publisher's `add`
(spec §4.1) — look up the Group for the call queue, create it if absent,
and append an Entry carrying the supplied tick. -/
def addToGroups (l ts qid : Nat) : List Group → List Group
  | [] => [⟨qid, [⟨l, ts⟩]⟩]
  | g :: gs =>
    if g.qid == qid then { g with entries := g.entries ++ [⟨l, ts⟩] } :: gs
    else g :: addToGroups l ts qid gs

/-- Modelled from the spec: the publisher's `remove` (spec §4.1) — walk
the Groups; in the Group that contains the subscriber remove the Entry;
if the Group is now empty remove it from the set. -/
def removeFromGroups (l : Nat) : List Group → List Group
  | [] => []
  | g :: gs =>
    if g.entries.any (fun e => e.listener == l) then
      if (g.entries.filter (fun e => !(e.listener == l))).isEmpty then gs
      else { g with entries := g.entries.filter (fun e => !(e.listener == l)) } :: gs
    else g :: removeFromGroups l gs

/-- Enqueue a unit of work on the call queue with the given identity
(the call-queue contract's `post`, spec §6: FIFO). -/
def pushWorkQ (qid : Nat) (w : Work) : List Queue → List Queue
  | [] => []
  | q :: qs =>
    if q.qid == qid then { q with work := q.work ++ [w] } :: qs
    else q :: pushWorkQ qid w qs

/-- Replace the pending work list of the call queue with the given
identity (used when a drain takes the pending work). -/
def setWorkQ (qid : Nat) (ws : List Work) : List Queue → List Queue
  | [] => []
  | q :: qs =>
    if q.qid == qid then { q with work := ws } :: qs
    else q :: setWorkQ qid ws qs

/-- Set the pending-Call slot of the sub-entry for the given Group inside
a Proxy's sub-entry list (one half of the atomic swap, spec §4.4). -/
def setPendingEntries (qid : Nat) (v : Option Nat) : List ProxyEntry → List ProxyEntry
  | [] => []
  | pe :: pes =>
    if pe.qid == qid then { pe with pending := v } :: pes
    else pe :: setPendingEntries qid v pes

/-- Set the pending-Call slot of the sub-entry for Group `qid` of the
Proxy for kind `k`. -/
def setPendingP (k qid : Nat) (v : Option Nat) : List Proxy → List Proxy
  | [] => []
  | p :: ps =>
    if p.kind == k then { p with entries := setPendingEntries qid v p.entries } :: ps
    else p :: setPendingP k qid v ps

/-- Read the pending-Call slot of the sub-entry for Group `qid` of the
Proxy for kind `k` (the other half of the atomic swap). -/
def getPending (k qid : Nat) (s : List Proxy) : Option Nat :=
  match findProxy k s with
  | none => none
  | some p =>
    match p.entries.find? (fun pe => pe.qid == qid) with
    | none => none
    | some pe => pe.pending

/-- The work list of the call queue with the given identity, if that
queue exists. -/
def queueWork (qid : Nat) (s : PubState) : Option (List Work) :=
  (s.queues.find? (fun q => q.qid == qid)).map (fun q => q.work)

/-- The servicing thread of the call queue with the given identity
(the call-queue contract's `isOnServicingThread`, spec §6). -/
def queueThread (qid : Nat) (s : PubState) : Option Nat :=
  (s.queues.find? (fun q => q.qid == qid)).map (fun q => q.thread)

def pushWork (qid : Nat) (w : Work) (s : PubState) : PubState :=
  { s with queues := pushWorkQ qid w s.queues }

def setQueueWork (qid : Nat) (ws : List Work) (s : PubState) : PubState :=
  { s with queues := setWorkQ qid ws s.queues }

/-- Modelled from the spec: the publisher's `remove` (spec §4.1); the body
of `ListenersBase::remove_void` is not in the tree.  Removes the
subscriber's Entry from the Group that contains it, releasing the Group
when it empties. -/
def removeListener (l : Nat) (s : PubState) : PubState :=
  { s with groups := removeFromGroups l s.groups }

/-- Modelled from the spec: the publisher's `add` (spec §4.1); the body of
`ListenersBase::add_void` is not in the tree.  Reads the tick counter
without incrementing and installs `Entry {subscriber, tick}` in the Group
for the call queue (creating the Group if absent); then registers a
sub-entry in every existing Proxy for this Group if not already
present. -/
def addListener (l qid : Nat) (s : PubState) : PubState :=
  { s with
    groups := addToGroups l s.tick qid s.groups
    proxies := s.proxies.map (fun p =>
      if p.entries.any (fun pe => pe.qid == qid) then p
      else { p with entries := p.entries ++ [⟨qid, none⟩] }) }

/-- A listener's synchronous reaction to an invocation, restricted — as
the spec restricts it (§4.2, §9 open question (a) prohibits re-entrant
`add`) — to `remove` calls on the publisher.  `reacts c l` lists the
subscribers that listener `l` removes while handling Call `c`. -/
def reactRemovals (ls : List Nat) (s : PubState) : PubState :=
  ls.foldl (fun st l => removeListener l st) s

/-- Whether the Entry `e` is still present in the (live) Entry list of
the Group for call queue `qid`. -/
def entryLive (qid : Nat) (e : Entry) (s : PubState) : Bool :=
  match findGroup qid s.groups with
  | none => false
  | some g => decide (e ∈ g.entries)

/-- Modelled from the spec: the delivery loop of `Group::do_call`
(spec §4.2) — executed on the servicing thread over the Entry list; for
each Entry whose tick-at-add is strictly less than the broadcast tick and
that still exists in the live list when its turn comes, the "current
listener" slot is set and the Call invoked against it; a removal issued
during the invocation (`reacts`) is honoured immediately, and the
iteration continues with the next Entry. -/
def doCallLoop (reacts : Nat → Nat → List Nat) (c t qid : Nat) :
    List Entry → PubState → PubState
  | [], s => s
  | e :: es, s =>
    if e.timestamp < t ∧ entryLive qid e s = true then
      doCallLoop reacts c t qid es
        (reactRemovals (reacts c e.listener)
          { s with invocations := s.invocations ++ [(e.listener, c)] })
    else
      doCallLoop reacts c t qid es s

/-- Modelled from the spec: `Group::do_call (Call, tick)` (spec §4.2),
declared at vf_Listeners.h:256 with the body not in the tree. -/
def do_call (reacts : Nat → Nat → List Nat) (c t qid : Nat) (s : PubState) : PubState :=
  match findGroup qid s.groups with
  | none => s
  | some g => doCallLoop reacts c t qid g.entries s

/-- Modelled from the spec: the body of `Group::do_call1` once the Group
has been looked up — confirm the subscriber is still present in the
Entry list with tick-at-add strictly less than the tick; if so invoke,
otherwise drop silently (the Call is released without delivery,
spec §4.2/§7). -/
def do_call1Group (reacts : Nat → Nat → List Nat) (c t l : Nat) (s : PubState)
    (g : Group) : PubState :=
  match g.entries.find? (fun e => e.listener == l) with
  | none => { s with released := s.released ++ [c] }
  | some e =>
    if e.timestamp < t then
      reactRemovals (reacts c l) { s with invocations := s.invocations ++ [(l, c)] }
    else { s with released := s.released ++ [c] }

/-- Modelled from the spec: `Group::do_call1 (Call, tick, listener)`
(spec §4.2), declared at vf_Listeners.h:257 with the body not in the
tree.  Executed on the servicing thread of the call queue `qid`. -/
def do_call1 (reacts : Nat → Nat → List Nat) (c t l qid : Nat) (s : PubState) : PubState :=
  match findGroup qid s.groups with
  | none => { s with released := s.released ++ [c] }
  | some g => do_call1Group reacts c t l s g

/-- Modelled from the spec: `Proxy::Work` execution (spec §4.4) —
atomically swap the pending slot back to null, retrieve the Call
currently held and invoke `Group::do_call (thatCall, tickAtPost)`. -/
def doProxyWork (reacts : Nat → Nat → List Nat) (k t qid : Nat) (s : PubState) : PubState :=
  match getPending k qid s.proxies with
  | none => s
  | some c => do_call reacts c t qid { s with proxies := setPendingP k qid none s.proxies }

/-- Execute one unit of work of call queue `qid` on its servicing
thread. -/
def runWork (reacts : Nat → Nat → List Nat) (qid : Nat) (s : PubState) : Work → PubState
  | .groupCall c t => do_call reacts c t qid s
  | .groupCall1 c t l => do_call1 reacts c t l qid s
  | .proxyCall k t => doProxyWork reacts k t qid s

/-- The call-queue contract's `synchronize` (spec §6): drain the pending
work now, executing it in FIFO order.  In this model executing work never
posts new work on any queue (reactions are `remove` calls only), so one
pass over the pending list empties the queue. -/
def drainQueue (reacts : Nat → Nat → List Nat) (qid : Nat) (s : PubState) : PubState :=
  match queueWork qid s with
  | none => s
  | some ws => ws.foldl (runWork reacts qid) (setQueueWork qid [] s)

/-- One step of the broadcast walk over the Group set: `Group::queue`
(spec §4.2) — enqueue a `do_call` work unit, never drain. -/
def queueStep (c t : Nat) (st : PubState) (g : Group) : PubState :=
  pushWork g.qid (Work.groupCall c t) st

/-- Modelled from the spec: the broadcast `queue (Call)` (spec §4.1, body
of `ListenersBase::queuep` not in the tree) — increment the tick counter
obtaining `t`, then hand the Call and `t` to every Group's `queue`, which
enqueues a `do_call` work unit and never drains. -/
def queueOp (c : Nat) (s : PubState) : PubState :=
  let t := s.tick + 1
  let s1 := { s with tick := t }
  s1.groups.foldl (queueStep c t) s1

/-- One step of the broadcast walk over the Group set: `Group::call`
(spec §4.2) — enqueue a `do_call` work unit and, if the caller is
executing on the queue's servicing thread, synchronously drain the queue
afterwards. -/
def callStep (reacts : Nat → Nat → List Nat) (thread c t : Nat) (st : PubState)
    (g : Group) : PubState :=
  if queueThread g.qid (pushWork g.qid (Work.groupCall c t) st) == some thread then
    drainQueue reacts g.qid (pushWork g.qid (Work.groupCall c t) st)
  else pushWork g.qid (Work.groupCall c t) st

/-- Modelled from the spec: the broadcast `call (Call)` (spec §4.1, body
of `ListenersBase::callp` not in the tree) — increment the tick counter
obtaining `t`; for each Group enqueue a `do_call` work unit and, if the
caller is executing on that Group's servicing thread, synchronously
drain the queue afterwards (spec §4.2, `Group::call`). -/
def callOp (reacts : Nat → Nat → List Nat) (thread c : Nat) (s : PubState) : PubState :=
  let t := s.tick + 1
  let s1 := { s with tick := t }
  s1.groups.foldl (callStep reacts thread c t) s1

/-- Modelled from the spec: the targeted `queue1 (subscriber, Call)`
(spec §4.1, body of `ListenersBase::queue1p_void` not in the tree) — find
the Group containing the subscriber; if found, enqueue a `do_call1` work
unit carrying the current tick; if not found, the Call is released
without delivery. -/
def queue1Op (l c : Nat) (s : PubState) : PubState :=
  match findListenerGroup l s.groups with
  | none => { s with released := s.released ++ [c] }
  | some g => pushWork g.qid (Work.groupCall1 c s.tick l) s

/-- Modelled from the spec: the targeted `call1 (subscriber, Call)`
(spec §4.1, body of `ListenersBase::call1p_void` not in the tree) — as
`queue1`, with the drain policy of the broadcast variant (spec §4.2): if
the caller is on the target Group's servicing thread, synchronously
drain that queue. -/
def call1Op (reacts : Nat → Nat → List Nat) (thread l c : Nat) (s : PubState) : PubState :=
  match findListenerGroup l s.groups with
  | none => { s with released := s.released ++ [c] }
  | some g =>
    if queueThread g.qid (pushWork g.qid (Work.groupCall1 c s.tick l) s) == some thread then
      drainQueue reacts g.qid (pushWork g.qid (Work.groupCall1 c s.tick l) s)
    else pushWork g.qid (Work.groupCall1 c s.tick l) s

/-- Modelled from the spec: one sub-entry step of `Proxy::update`
(spec §4.4) — atomically swap the pending-Call slot with the new Call,
capturing the previous value; if it was null, enqueue the Proxy work
unit on the Group's call queue; if it was non-null, the old Call is
released without ever executing and no new work unit is enqueued. -/
def proxyUpdateStep (k c t : Nat) (st : PubState) (pe : ProxyEntry) : PubState :=
  match getPending k pe.qid st.proxies with
  | none =>
    pushWork pe.qid (Work.proxyCall k t)
      { st with proxies := setPendingP k pe.qid (some c) st.proxies }
  | some old =>
    { st with
      proxies := setPendingP k pe.qid (some c) st.proxies
      released := st.released ++ [old] }

/-- Modelled from the spec: `Proxy::update (Call, tick)` (spec §4.4, body
not in the tree) — run the swap-and-post step over every sub-entry. -/
def proxyUpdate (k c t : Nat) (s : PubState) : PubState :=
  match findProxy k s.proxies with
  | none => s
  | some p => p.entries.foldl (proxyUpdateStep k c t) s

/-- Modelled from the spec: the publisher's `update (kind, Call)`
(spec §4.1, body of `ListenersBase::updatep` not in the tree) — find or
create the Proxy for the kind (a fresh Proxy enrolls a sub-entry for
every existing Group); then increment the tick counter obtaining `t` and
run `Proxy::update (Call, t)`.  `update` never drains a call queue. -/
def updateOp (k c : Nat) (s : PubState) : PubState :=
  let s1 :=
    match findProxy k s.proxies with
    | some _ => s
    | none => { s with proxies := s.proxies ++ [(⟨k, s.groups.map (fun (g : Group) => (⟨g.qid, none⟩ : ProxyEntry))⟩ : Proxy)] }
  let t := s1.tick + 1
  proxyUpdate k c t { s1 with tick := t }

/-- Whether the subscriber is currently registered in some Group of the
publisher. -/
def registered (l : Nat) (s : PubState) : Bool :=
  s.groups.any (fun g => g.entries.any (fun e => e.listener == l))

/-- The externally observable operations on one publisher and its call
queues, for whole-run statements. -/
inductive Event where
  | add (l qid : Nat)
  | remove (l : Nat)
  | call (thread c : Nat)
  | queueB (c : Nat)
  | call1 (thread l c : Nat)
  | queue1 (l c : Nat)
  | update (kind c : Nat)
  | drain (qid : Nat)
deriving DecidableEq

def stepEv (reacts : Nat → Nat → List Nat) (s : PubState) : Event → PubState
  | .add l qid => addListener l qid s
  | .remove l => removeListener l s
  | .call th c => callOp reacts th c s
  | .queueB c => queueOp c s
  | .call1 th l c => call1Op reacts th l c s
  | .queue1 l c => queue1Op l c s
  | .update k c => updateOp k c s
  | .drain qid => drainQueue reacts qid s

def run (reacts : Nat → Nat → List Nat) (s : PubState) (evs : List Event) : PubState :=
  evs.foldl (stepEv reacts) s

/-- The sub-history of invocations delivered to one subscriber. -/
def invocationsOf (l : Nat) (s : PubState) : List (Nat × Nat) :=
  s.invocations.filter (fun p => p.1 == l)

/-!  Call allocation provenance (vf_Listeners.h:208-220, 432-463).

The source declares
`typedef GlobalFifoFreeStore <ListenersStructureTag> AllocatorType` and
`typedef GlobalFifoFreeStore <ListenersBase> CallAllocatorType`, and each
publish operation allocates its Call with
`new (getCallAllocator ()) CallType <Functor> (f)`.  The class
`GlobalFifoFreeStore` itself is not in the tree. -/

/-- The tag types with which `GlobalFifoFreeStore` is instantiated in
vf_Listeners.h: `ListenersStructureTag` (structural allocations) and the
class `ListenersBase` itself (Call allocations).  A tag is a C++ type,
not a publisher instance. -/
inductive FreeStoreTag where
  | listenersStructureTag
  | listenersBase
deriving DecidableEq

/-- Modelled from the spec: `GlobalFifoFreeStore <Tag>` is not in the
tree; §6's free-store contract describes it as "a FIFO-biased slab
allocator keyed by a tag type", so there is one store identity per tag,
shared by every holder of that tag. -/
def globalFifoFreeStore : FreeStoreTag → Nat
  | .listenersStructureTag => 0
  | .listenersBase => 1

/-- From `typedef GlobalFifoFreeStore <ListenersBase> CallAllocatorType`
(vf_Listeners.h:212) and `getCallAllocator` (vf_Listeners.h:309-312):
the Call allocator a publisher instance hands to `new` is the store for
the tag type `ListenersBase`; the type mentions no instance, so the
result does not depend on which publisher asks. -/
def callAllocatorOf (_publisherInstance : Nat) : Nat :=
  globalFifoFreeStore FreeStoreTag.listenersBase

/-- A Call as allocated by the typed facade: which free store it came
from and the bound functor.  `Call` derives from `ReferenceCountedObject`
and `AllocatedBy <CallAllocatorType>` (vf_Listeners.h:214-215). -/
structure CallObj where
  store : Nat
  functor : Nat
deriving DecidableEq

/-- From `Listeners::callf` (vf_Listeners.h:433-436):
`callp (new (getCallAllocator ()) CallType <Functor> (f))`. -/
def callfAlloc (publisher f : Nat) : CallObj :=
  ⟨callAllocatorOf publisher, f⟩

/-- From `Listeners::queuef` (vf_Listeners.h:441-444). -/
def queuefAlloc (publisher f : Nat) : CallObj :=
  ⟨callAllocatorOf publisher, f⟩

/-- From `Listeners::call1f` (vf_Listeners.h:447-450). -/
def call1fAlloc (publisher f : Nat) : CallObj :=
  ⟨callAllocatorOf publisher, f⟩

/-- From `Listeners::queue1f` (vf_Listeners.h:453-456). -/
def queue1fAlloc (publisher f : Nat) : CallObj :=
  ⟨callAllocatorOf publisher, f⟩

/-- From `Listeners::updatef` (vf_Listeners.h:459-463). -/
def updatefAlloc (publisher f : Nat) : CallObj :=
  ⟨callAllocatorOf publisher, f⟩

/-!  Tick representation (vf_Listeners.h:223, 331).

The source declares `typedef unsigned long timestamp_t;` and the field
`timestamp_t m_timestamp;`.  The width of C++ `unsigned long` is
implementation-defined: the standard requires at least 32 bits; it is
32 bits under the ILP32 and LLP64 data models and 64 bits under LP64. -/

/-- A C++ data model, as far as the tick type is concerned: the bit
width of `unsigned long`, together with the standard's lower bound of
32 bits. -/
structure DataModel where
  ulongBits : Nat
  ulong_ge : 32 ≤ ulongBits

/-- The 32-bit-`unsigned long` data models (ILP32, LLP64 — e.g. 32-bit
platforms and 64-bit Windows). -/
def ilp32 : DataModel := ⟨32, by norm_num⟩

/-- The LP64 data model (e.g. 64-bit Linux and macOS), where
`unsigned long` is 64 bits. -/
def lp64 : DataModel := ⟨64, by norm_num⟩

/-- From `typedef unsigned long timestamp_t` (vf_Listeners.h:223): the
tick is stored in an `unsigned long`, so its width is whatever the
platform data model gives that type. -/
def timestampBits (dm : DataModel) : Nat := dm.ulongBits

/-- One increment of `m_timestamp` under C++ unsigned arithmetic: the
value wraps modulo two to the width of `timestamp_t`. -/
def tickIncr (dm : DataModel) (t : Nat) : Nat :=
  (t + 1) % 2 ^ timestampBits dm

/-!  Proxy kind identity (vf_Listeners.h:278-303, 458-463).

The source fixes `enum { maxMemberBytes = 16 }` and stores
`char m_member [maxMemberBytes]; const size_t m_bytes;`.  The bodies of
`Proxy::Proxy (void const* member, size_t bytes)` and `Proxy::match` are
not in the tree. -/

/-- From `enum { maxMemberBytes = 16 }` (vf_Listeners.h:282-285). -/
def maxMemberBytes : Nat := 16

/-- Modelled from the spec: the Proxy constructor captures the raw bytes
of the pointer-to-member value into the fixed `m_member [16]` buffer and
records `m_bytes` (spec §4.4); a notification-kind identity longer than
16 bytes is a contract violation reported by a fatal assertion (spec §7),
modelled as `none`.  The copy leaves the bytes of the buffer past
`m_bytes` unconstrained; the model zeroes them. -/
def proxyCapture (member : List Nat) : Option (List Nat × Nat) :=
  if member.length ≤ maxMemberBytes then
    some (member ++ List.replicate (maxMemberBytes - member.length) 0, member.length)
  else none

/-- Modelled from the spec: `Proxy::match (member, bytes)` compares the
stored identity with a candidate by length and byte-wise equality of the
first `m_bytes` bytes (spec §4.4: "keyed by the raw bytes (≤ 16) of a
pointer-to-member value", matched "by byte-wise equality"). -/
def proxyMatchBytes (stored : List Nat × Nat) (member : List Nat) : Bool :=
  member.length == stored.2 && stored.1.take stored.2 == member

/-!  ScopedAudioSampleBuffer (vf_ScopedAudioSampleBuffer.h:65-118).

This class is entirely in the tree.  The external `AudioBufferPool` is
out of scope for the spec; the constructor is therefore parameterized by
the pool's identity and by the `requestBuffer` result function, and the
destructor is modelled by the release action it performs. -/

/-- From vf_ScopedAudioSampleBuffer.h:113-115: the members are a pool
reference bound at construction and
`AudioBufferPool::Buffer* const m_buffer` — a const pointer, so it is
never reassigned during the object's lifetime (and the class declares no
other mutating member). -/
structure ScopedAudioSampleBuffer where
  m_pool : Nat
  m_buffer : Nat
deriving DecidableEq

/-- From the constructor (vf_ScopedAudioSampleBuffer.h:75-81):
`m_pool (pool), m_buffer (pool.requestBuffer (numChannels, numSamples))`. -/
def mkScopedAudioSampleBuffer (pool : Nat) (requestBuffer : Int → Int → Nat)
    (numChannels numSamples : Int) : ScopedAudioSampleBuffer :=
  ⟨pool, requestBuffer numChannels numSamples⟩

/-- From `getBuffer` (vf_ScopedAudioSampleBuffer.h:90-93). -/
def ScopedAudioSampleBuffer.getBuffer (b : ScopedAudioSampleBuffer) : Nat :=
  b.m_buffer

/-- From `operator->` (vf_ScopedAudioSampleBuffer.h:96-99):
`return getBuffer ()`. -/
def ScopedAudioSampleBuffer.arrowOp (b : ScopedAudioSampleBuffer) : Nat :=
  b.getBuffer

/-- From `operator*` (vf_ScopedAudioSampleBuffer.h:102-105):
`return *getBuffer ()` — the reference designates the object at the
stored pointer. -/
def ScopedAudioSampleBuffer.derefOp (b : ScopedAudioSampleBuffer) : Nat :=
  b.getBuffer

/-- From `operator VF_JUCE::AudioSampleBuffer*`
(vf_ScopedAudioSampleBuffer.h:108-111): `return getBuffer ()`. -/
def ScopedAudioSampleBuffer.toBufferPtr (b : ScopedAudioSampleBuffer) : Nat :=
  b.getBuffer

/-- From the destructor (vf_ScopedAudioSampleBuffer.h:84-87):
`m_pool.releaseBuffer (m_buffer)` — the release action as the pair
(pool released to, pointer released). -/
def ScopedAudioSampleBuffer.destructorRelease (b : ScopedAudioSampleBuffer) : Nat × Nat :=
  (b.m_pool, b.m_buffer)

/-!  Theorems. -/

/-- C10: for every ScopedAudioSampleBuffer constructed from a pool, the
pointer returned by getBuffer, operator->, operator* and the conversion
to AudioSampleBuffer* is exactly the pointer `pool.requestBuffer
(numChannels, numSamples)` returned at construction (the stored pointer
is const and the class has no mutating member, so this holds for the
whole lifetime), and the destructor releases exactly that pointer back to
the same pool. -/
theorem scoped_buffer_round_trip :
    ∀ (pool : Nat) (requestBuffer : Int → Int → Nat) (numChannels numSamples : Int),
      (mkScopedAudioSampleBuffer pool requestBuffer numChannels numSamples).getBuffer
          = requestBuffer numChannels numSamples
      ∧ (mkScopedAudioSampleBuffer pool requestBuffer numChannels numSamples).arrowOp
          = requestBuffer numChannels numSamples
      ∧ (mkScopedAudioSampleBuffer pool requestBuffer numChannels numSamples).derefOp
          = requestBuffer numChannels numSamples
      ∧ (mkScopedAudioSampleBuffer pool requestBuffer numChannels numSamples).toBufferPtr
          = requestBuffer numChannels numSamples
      ∧ (mkScopedAudioSampleBuffer pool requestBuffer numChannels numSamples).destructorRelease
          = (pool, requestBuffer numChannels numSamples) :=
  fun _ _ _ _ => ⟨rfl, rfl, rfl, rfl, rfl⟩

/-- C7 counterexample: the Call free-store is NOT keyed to the publisher
instance — two distinct publisher instances hand out the same Call
allocator, because `CallAllocatorType` is `GlobalFifoFreeStore` keyed by
the tag type `ListenersBase`, which is the same type for every
instance. -/
theorem call_allocator_shared_counterexample :
    callAllocatorOf 0 = callAllocatorOf 1 ∧ (0 : Nat) ≠ 1 :=
  ⟨rfl, by norm_num⟩

/-- C7 (amended): every Call created by a publish operation (callf,
queuef, call1f, queue1f, updatef) is a reference-counted object allocated
from the FIFO free-store keyed to the tag type `ListenersBase` — one
global store shared by all publisher instances (each instance holds a
reference-counted handle to it), not a store per publisher instance. -/
theorem call_allocator_tag_keyed :
    ∀ publisher f : Nat,
      (callfAlloc publisher f).store = globalFifoFreeStore FreeStoreTag.listenersBase
      ∧ (queuefAlloc publisher f).store = globalFifoFreeStore FreeStoreTag.listenersBase
      ∧ (call1fAlloc publisher f).store = globalFifoFreeStore FreeStoreTag.listenersBase
      ∧ (queue1fAlloc publisher f).store = globalFifoFreeStore FreeStoreTag.listenersBase
      ∧ (updatefAlloc publisher f).store = globalFifoFreeStore FreeStoreTag.listenersBase
      ∧ ∀ publisher' : Nat, callAllocatorOf publisher = callAllocatorOf publisher' :=
  fun _ _ => ⟨rfl, rfl, rfl, rfl, rfl, fun _ => rfl⟩

/-- C8 counterexample: the source's tick type is `unsigned long`, not a
32-bit type — under the LP64 data model (64-bit Linux/macOS, a platform
the header compiles on) `timestamp_t` is 64 bits wide and the value
`2^32 - 1` increments to `2^32` instead of wrapping to 0 modulo
`2^32`. -/
theorem timestamp_width_counterexample :
    timestampBits lp64 = 64 ∧ timestampBits lp64 ≠ 32
      ∧ tickIncr lp64 (2 ^ 32 - 1) = 2 ^ 32 := by
  refine ⟨rfl, by norm_num [timestampBits, lp64], ?_⟩
  show (2 ^ 32 - 1 + 1) % 2 ^ timestampBits lp64 = 2 ^ 32
  norm_num [timestampBits, lp64]

/-- C8 (amended): the source represents the tick as C++ `unsigned long`,
whose width is platform-dependent but at least 32 bits (32 under
ILP32/LLP64, 64 under LP64); tick arithmetic wraps modulo `2 ^ width`,
so on platforms where `unsigned long` is 32 bits the counter wraps
modulo `2^32` after about 4e9 broadcasts in one publisher lifetime,
while under LP64 it wraps only at `2^64`. -/
theorem timestamp_platform_width :
    (∀ dm : DataModel, 32 ≤ timestampBits dm)
    ∧ timestampBits ilp32 = 32
    ∧ timestampBits lp64 = 64
    ∧ tickIncr ilp32 (2 ^ 32 - 1) = 0
    ∧ tickIncr lp64 (2 ^ 64 - 1) = 0
    ∧ (∀ t : Nat, t + 1 < 2 ^ 32 → tickIncr ilp32 t = t + 1) := by
  refine ⟨fun dm => dm.ulong_ge, rfl, rfl, ?_, ?_, ?_⟩
  · show (2 ^ 32 - 1 + 1) % 2 ^ timestampBits ilp32 = 0
    norm_num [timestampBits, ilp32]
  · show (2 ^ 64 - 1 + 1) % 2 ^ timestampBits lp64 = 0
    norm_num [timestampBits, lp64]
  · intro t ht
    show (t + 1) % 2 ^ timestampBits ilp32 = t + 1
    exact Nat.mod_eq_of_lt ht

/-- C8 witness for `timestamp_platform_width`: below the 32-bit bound the
ILP32 tick does not wrap. -/
theorem timestamp_platform_width_witness :
    (5 : Nat) + 1 < 2 ^ 32 ∧ tickIncr ilp32 5 = 6 :=
  ⟨by norm_num, timestamp_platform_width.2.2.2.2.2 5 (by norm_num)⟩

/-- C9: a Proxy's identity is the raw bytes of the pointer-to-member
value, of length at most `maxMemberBytes = 16`, compared by byte-wise
equality; under the precondition `length ≤ 16` the copy into the 16-byte
`m_member` buffer never overflows (the stored buffer is exactly 16 bytes
and its first `m_bytes` bytes are the captured identity), and a
notification-kind identity longer than 16 bytes is a contract violation
reported by a fatal assertion. -/
theorem proxy_kind_identity_cap :
    ∀ member : List Nat,
      (member.length ≤ maxMemberBytes →
        proxyCapture member
            = some (member ++ List.replicate (maxMemberBytes - member.length) 0, member.length)
          ∧ ∀ st, proxyCapture member = some st →
              st.1.length = maxMemberBytes
              ∧ st.1.take st.2 = member
              ∧ ∀ member' : List Nat, (proxyMatchBytes st member' = true ↔ member' = member))
      ∧ (maxMemberBytes < member.length → proxyCapture member = none) := by
  intro member
  constructor
  · intro hle
    have hcap : proxyCapture member
        = some (member ++ List.replicate (maxMemberBytes - member.length) 0, member.length) := by
      simp [proxyCapture, hle]
    refine ⟨hcap, ?_⟩
    intro st hst
    rw [hcap] at hst
    obtain rfl : (member ++ List.replicate (maxMemberBytes - member.length) 0, member.length)
        = st := Option.some.inj hst
    have hlen : (member ++ List.replicate (maxMemberBytes - member.length) 0).length
        = maxMemberBytes := by
      simp [List.length_append, Nat.add_sub_cancel' hle]
    have htake : (member ++ List.replicate (maxMemberBytes - member.length) 0).take member.length
        = member := by
      exact List.take_left member (List.replicate (maxMemberBytes - member.length) 0)
    refine ⟨hlen, htake, ?_⟩
    intro member'
    simp only [proxyMatchBytes, Bool.and_eq_true, beq_iff_eq, htake]
    constructor
    · rintro ⟨_, rfl⟩
      rfl
    · rintro rfl
      exact ⟨rfl, rfl⟩
  · intro hgt
    simp [proxyCapture, Nat.not_le.mpr hgt]

/-- C9 witness for `proxy_kind_identity_cap`: an 8-byte pointer-to-member
identity is captured without overflow and matched byte-wise; a 17-byte
identity trips the fatal assertion. -/
theorem proxy_kind_identity_cap_witness :
    ([1, 2, 3, 4, 5, 6, 7, 8] : List Nat).length ≤ maxMemberBytes
    ∧ proxyCapture [1, 2, 3, 4, 5, 6, 7, 8]
        = some ([1, 2, 3, 4, 5, 6, 7, 8] ++ List.replicate 8 0, 8)
    ∧ maxMemberBytes < (List.replicate 17 0 : List Nat).length
    ∧ proxyCapture (List.replicate 17 0) = none :=
  ⟨by norm_num [maxMemberBytes],
   ((proxy_kind_identity_cap [1, 2, 3, 4, 5, 6, 7, 8]).1 (by norm_num [maxMemberBytes])).1,
   by simp [maxMemberBytes],
   (proxy_kind_identity_cap (List.replicate 17 0)).2 (by simp [maxMemberBytes])⟩

/-!  Helper lemmas about the queue-list operations. -/

theorem findQ_pushWorkQ_self (qid : Nat) (w : Work) (qs : List Queue) :
    (pushWorkQ qid w qs).find? (fun q => q.qid == qid)
      = (qs.find? (fun q => q.qid == qid)).map (fun q => { q with work := q.work ++ [w] }) := by
  induction qs with
  | nil => rfl
  | cons q qs ih =>
    cases hq : (q.qid == qid) with
    | true => simp [pushWorkQ, hq, List.find?]
    | false => simp [pushWorkQ, hq, List.find?, ih]

theorem findQ_pushWorkQ_ne (qid' qid : Nat) (w : Work) (qs : List Queue) (h : qid' ≠ qid) :
    (pushWorkQ qid w qs).find? (fun q => q.qid == qid')
      = qs.find? (fun q => q.qid == qid') := by
  induction qs with
  | nil => rfl
  | cons q qs ih =>
    cases hq : (q.qid == qid) with
    | true =>
      have hqv : q.qid = qid := by simpa using hq
      have hne : q.qid ≠ qid' := by omega
      have hbe : (q.qid == qid') = false := beq_eq_false_iff_ne.mpr hne
      simp [pushWorkQ, hq, List.find?, hbe]
    | false => simp [pushWorkQ, hq, List.find?, ih]

theorem findQ_setWorkQ_self (qid : Nat) (ws : List Work) (qs : List Queue) :
    (setWorkQ qid ws qs).find? (fun q => q.qid == qid)
      = (qs.find? (fun q => q.qid == qid)).map (fun q => { q with work := ws }) := by
  induction qs with
  | nil => rfl
  | cons q qs ih =>
    cases hq : (q.qid == qid) with
    | true => simp [setWorkQ, hq, List.find?]
    | false => simp [setWorkQ, hq, List.find?, ih]

theorem findQ_setWorkQ_ne (qid' qid : Nat) (ws : List Work) (qs : List Queue) (h : qid' ≠ qid) :
    (setWorkQ qid ws qs).find? (fun q => q.qid == qid')
      = qs.find? (fun q => q.qid == qid') := by
  induction qs with
  | nil => rfl
  | cons q qs ih =>
    cases hq : (q.qid == qid) with
    | true =>
      have hqv : q.qid = qid := by simpa using hq
      have hne : q.qid ≠ qid' := by omega
      have hbe : (q.qid == qid') = false := beq_eq_false_iff_ne.mpr hne
      simp [setWorkQ, hq, List.find?, hbe]
    | false => simp [setWorkQ, hq, List.find?, ih]

theorem queueWork_pushWork_self (qid : Nat) (w : Work) (s : PubState) :
    queueWork qid (pushWork qid w s) = (queueWork qid s).map (fun ws => ws ++ [w]) := by
  show ((pushWorkQ qid w s.queues).find? (fun q => q.qid == qid)).map (fun q => q.work)
      = ((s.queues.find? (fun q => q.qid == qid)).map (fun q => q.work)).map (fun ws => ws ++ [w])
  rw [findQ_pushWorkQ_self]
  cases s.queues.find? (fun q => q.qid == qid) <;> rfl

theorem queueWork_pushWork_ne (qid' qid : Nat) (w : Work) (s : PubState) (h : qid' ≠ qid) :
    queueWork qid' (pushWork qid w s) = queueWork qid' s := by
  show ((pushWorkQ qid w s.queues).find? (fun q => q.qid == qid')).map (fun q => q.work)
      = (s.queues.find? (fun q => q.qid == qid')).map (fun q => q.work)
  rw [findQ_pushWorkQ_ne qid' qid w s.queues h]

theorem queueWork_setQueueWork_self (qid : Nat) (ws : List Work) (s : PubState) :
    queueWork qid (setQueueWork qid ws s) = (queueWork qid s).map (fun _ => ws) := by
  show ((setWorkQ qid ws s.queues).find? (fun q => q.qid == qid)).map (fun q => q.work)
      = ((s.queues.find? (fun q => q.qid == qid)).map (fun q => q.work)).map (fun _ => ws)
  rw [findQ_setWorkQ_self]
  cases s.queues.find? (fun q => q.qid == qid) <;> rfl

theorem queueWork_setQueueWork_ne (qid' qid : Nat) (ws : List Work) (s : PubState)
    (h : qid' ≠ qid) :
    queueWork qid' (setQueueWork qid ws s) = queueWork qid' s := by
  show ((setWorkQ qid ws s.queues).find? (fun q => q.qid == qid')).map (fun q => q.work)
      = (s.queues.find? (fun q => q.qid == qid')).map (fun q => q.work)
  rw [findQ_setWorkQ_ne qid' qid ws s.queues h]

theorem queueThread_pushWork (qid' qid : Nat) (w : Work) (s : PubState) :
    queueThread qid' (pushWork qid w s) = queueThread qid' s := by
  show ((pushWorkQ qid w s.queues).find? (fun q => q.qid == qid')).map (fun q => q.thread)
      = (s.queues.find? (fun q => q.qid == qid')).map (fun q => q.thread)
  by_cases h : qid' = qid
  · subst h
    rw [findQ_pushWorkQ_self]
    cases s.queues.find? (fun q => q.qid == qid') <;> rfl
  · rw [findQ_pushWorkQ_ne qid' qid w s.queues h]

theorem queueThread_setQueueWork (qid' qid : Nat) (ws : List Work) (s : PubState) :
    queueThread qid' (setQueueWork qid ws s) = queueThread qid' s := by
  show ((setWorkQ qid ws s.queues).find? (fun q => q.qid == qid')).map (fun q => q.thread)
      = (s.queues.find? (fun q => q.qid == qid')).map (fun q => q.thread)
  by_cases h : qid' = qid
  · subst h
    rw [findQ_setWorkQ_self]
    cases s.queues.find? (fun q => q.qid == qid') <;> rfl
  · rw [findQ_setWorkQ_ne qid' qid ws s.queues h]

/-!  Helper lemmas about removal and reactions. -/

theorem reactRemovals_nil (s : PubState) : reactRemovals [] s = s := rfl

theorem reactRemovals_cons (a : Nat) (ls : List Nat) (s : PubState) :
    reactRemovals (a :: ls) s = reactRemovals ls (removeListener a s) := rfl

theorem removeListener_frame (l : Nat) (s : PubState) :
    (removeListener l s).tick = s.tick
    ∧ (removeListener l s).proxies = s.proxies
    ∧ (removeListener l s).queues = s.queues
    ∧ (removeListener l s).invocations = s.invocations
    ∧ (removeListener l s).released = s.released :=
  ⟨rfl, rfl, rfl, rfl, rfl⟩

theorem reactRemovals_frame (ls : List Nat) : ∀ s : PubState,
    (reactRemovals ls s).tick = s.tick
    ∧ (reactRemovals ls s).proxies = s.proxies
    ∧ (reactRemovals ls s).queues = s.queues
    ∧ (reactRemovals ls s).invocations = s.invocations
    ∧ (reactRemovals ls s).released = s.released := by
  induction ls with
  | nil => intro s; exact ⟨rfl, rfl, rfl, rfl, rfl⟩
  | cons a ls ih =>
    intro s
    rw [reactRemovals_cons]
    exact ih (removeListener a s)

theorem entriesAny_filter_false (S : Nat) (p : Entry → Bool) (es : List Entry)
    (h : es.any (fun e => e.listener == S) = false) :
    (es.filter p).any (fun e => e.listener == S) = false := by
  rw [List.any_eq_false] at h ⊢
  intro e he
  exact h e (List.mem_of_mem_filter he)

theorem removeFromGroups_any_false (S l : Nat) :
    ∀ gs : List Group,
      gs.any (fun g => g.entries.any (fun e => e.listener == S)) = false →
      (removeFromGroups l gs).any (fun g => g.entries.any (fun e => e.listener == S)) = false := by
  intro gs
  induction gs with
  | nil => intro h; exact h
  | cons g gs ih =>
    intro h
    rw [List.any_cons, Bool.or_eq_false_iff] at h
    obtain ⟨h1, h2⟩ := h
    rw [removeFromGroups]
    by_cases hc : g.entries.any (fun e => e.listener == l) = true
    · rw [if_pos hc]
      by_cases he : (g.entries.filter (fun e => !(e.listener == l))).isEmpty = true
      · rw [if_pos he]; exact h2
      · rw [if_neg he, List.any_cons, Bool.or_eq_false_iff]
        exact ⟨entriesAny_filter_false S _ _ h1, h2⟩
    · rw [if_neg hc, List.any_cons, Bool.or_eq_false_iff]
      exact ⟨h1, ih h2⟩

theorem removeFromGroups_self_unregisters (S : Nat) :
    ∀ gs : List Group,
      (gs.filter (fun g => g.entries.any (fun e => e.listener == S))).length ≤ 1 →
      (removeFromGroups S gs).any (fun g => g.entries.any (fun e => e.listener == S)) = false := by
  intro gs
  induction gs with
  | nil => intro _; rfl
  | cons g gs ih =>
    intro h
    rw [removeFromGroups]
    by_cases hc : g.entries.any (fun e => e.listener == S) = true
    · have ht : gs.any (fun g2 => g2.entries.any (fun e => e.listener == S)) = false := by
        rw [List.filter_cons_of_pos
              (p := fun (g2 : Group) => g2.entries.any (fun e => e.listener == S)) hc,
            List.length_cons] at h
        have h0 : (gs.filter (fun g2 => g2.entries.any (fun e => e.listener == S))).length = 0 :=
          by omega
        rw [List.length_eq_zero] at h0
        rw [List.any_eq_false]
        intro x hx
        have hall := List.filter_eq_nil_iff.mp h0 x hx
        simpa using hall
      rw [if_pos hc]
      by_cases he : (g.entries.filter (fun e => !(e.listener == S))).isEmpty = true
      · rw [if_pos he]; exact ht
      · rw [if_neg he, List.any_cons, Bool.or_eq_false_iff]
        constructor
        · rw [List.any_eq_false]
          intro e he'
          have hp := List.of_mem_filter he'
          simpa using hp
        · exact ht
    · rw [if_neg hc, List.any_cons, Bool.or_eq_false_iff]
      refine ⟨by simpa using hc, ih ?_⟩
      rwa [List.filter_cons_of_neg
             (p := fun (g2 : Group) => g2.entries.any (fun e => e.listener == S)) hc] at h

theorem registered_remove_self (S : Nat) (s : PubState)
    (h : (s.groups.filter (fun g => g.entries.any (fun e => e.listener == S))).length ≤ 1) :
    registered S (removeListener S s) = false :=
  removeFromGroups_self_unregisters S s.groups h

theorem registered_remove_mono (S l : Nat) (s : PubState)
    (h : registered S s = false) : registered S (removeListener l s) = false :=
  removeFromGroups_any_false S l s.groups h

theorem registered_reactRemovals (S : Nat) (ls : List Nat) : ∀ s : PubState,
    registered S s = false → registered S (reactRemovals ls s) = false := by
  induction ls with
  | nil => intro s h; exact h
  | cons a ls ih =>
    intro s h
    rw [reactRemovals_cons]
    exact ih (removeListener a s) (registered_remove_mono S a s h)

/-!  Helper lemmas about the delivery loop and the work executors. -/

theorem doCallLoop_nil (reacts : Nat → Nat → List Nat) (c t qid : Nat) (s : PubState) :
    doCallLoop reacts c t qid [] s = s := rfl

theorem doCallLoop_cons (reacts : Nat → Nat → List Nat) (c t qid : Nat) (e : Entry)
    (es : List Entry) (s : PubState) :
    doCallLoop reacts c t qid (e :: es) s
      = if e.timestamp < t ∧ entryLive qid e s = true then
          doCallLoop reacts c t qid es
            (reactRemovals (reacts c e.listener)
              { s with invocations := s.invocations ++ [(e.listener, c)] })
        else doCallLoop reacts c t qid es s := rfl

theorem doCallLoop_frame (reacts : Nat → Nat → List Nat) (c t qid : Nat) :
    ∀ (es : List Entry) (s : PubState),
      (doCallLoop reacts c t qid es s).tick = s.tick
      ∧ (doCallLoop reacts c t qid es s).proxies = s.proxies
      ∧ (doCallLoop reacts c t qid es s).queues = s.queues
      ∧ (doCallLoop reacts c t qid es s).released = s.released
      ∧ ∃ d, (doCallLoop reacts c t qid es s).invocations = s.invocations ++ d := by
  intro es
  induction es with
  | nil => intro s; exact ⟨rfl, rfl, rfl, rfl, [], by simp [doCallLoop_nil]⟩
  | cons e es ih =>
    intro s
    rw [doCallLoop_cons]
    by_cases hcond : e.timestamp < t ∧ entryLive qid e s = true
    · rw [if_pos hcond]
      obtain ⟨i1, i2, i3, i4, d, hd⟩ := ih (reactRemovals (reacts c e.listener)
        { s with invocations := s.invocations ++ [(e.listener, c)] })
      obtain ⟨r1, r2, r3, r4, r5⟩ := reactRemovals_frame (reacts c e.listener)
        { s with invocations := s.invocations ++ [(e.listener, c)] }
      refine ⟨by rw [i1, r1], by rw [i2, r2], by rw [i3, r3], by rw [i4, r5],
        (e.listener, c) :: d, ?_⟩
      rw [hd, r4]
      simp
    · rw [if_neg hcond]
      exact ih s

theorem doCallLoop_noReact_groups (c t qid : Nat) :
    ∀ (es : List Entry) (s : PubState),
      (doCallLoop noReact c t qid es s).groups = s.groups := by
  intro es
  induction es with
  | nil => intro s; rfl
  | cons e es ih =>
    intro s
    rw [doCallLoop_cons]
    by_cases hcond : e.timestamp < t ∧ entryLive qid e s = true
    · rw [if_pos hcond, ih]
      rfl
    · rw [if_neg hcond]
      exact ih s

theorem doCallLoop_noReact_eq (c t qid : Nat) (g : Group) :
    ∀ (es : List Entry) (s : PubState), findGroup qid s.groups = some g →
      (∀ e ∈ es, e ∈ g.entries) →
      doCallLoop noReact c t qid es s
        = { s with invocations := s.invocations
              ++ (es.filter (fun e => e.timestamp < t)).map (fun e => (e.listener, c)) } := by
  intro es
  induction es with
  | nil =>
    intro s _ _
    rw [doCallLoop_nil]
    simp
  | cons e es ih =>
    intro s hg hsub
    have hlive : entryLive qid e s = true := by
      unfold entryLive
      rw [hg]
      simp [hsub e (List.mem_cons_self e es)]
    rw [doCallLoop_cons]
    by_cases hts : e.timestamp < t
    · rw [if_pos ⟨hts, hlive⟩]
      have hstep : reactRemovals (noReact c e.listener)
          { s with invocations := s.invocations ++ [(e.listener, c)] }
          = { s with invocations := s.invocations ++ [(e.listener, c)] } := rfl
      rw [hstep,
        ih { s with invocations := s.invocations ++ [(e.listener, c)] } hg
          (fun e' he' => hsub e' (List.mem_cons_of_mem e he'))]
      simp [List.filter_cons, hts]
    · rw [if_neg (fun hh => hts hh.1),
        ih s hg (fun e' he' => hsub e' (List.mem_cons_of_mem e he'))]
      simp [List.filter_cons, hts]

theorem do_call_none (reacts : Nat → Nat → List Nat) (c t qid : Nat) (s : PubState)
    (hg : findGroup qid s.groups = none) :
    do_call reacts c t qid s = s := by
  unfold do_call
  rw [hg]

theorem do_call_some (reacts : Nat → Nat → List Nat) (c t qid : Nat) (s : PubState)
    (g : Group) (hg : findGroup qid s.groups = some g) :
    do_call reacts c t qid s = doCallLoop reacts c t qid g.entries s := by
  unfold do_call
  rw [hg]

theorem do_call_noReact_eq (c t qid : Nat) (g : Group) (s : PubState)
    (hg : findGroup qid s.groups = some g) :
    do_call noReact c t qid s
      = { s with invocations := s.invocations
            ++ (g.entries.filter (fun e => e.timestamp < t)).map (fun e => (e.listener, c)) } := by
  rw [do_call_some noReact c t qid s g hg]
  exact doCallLoop_noReact_eq c t qid g g.entries s hg (fun _ he => he)

theorem do_call1_eq_nogroup (reacts : Nat → Nat → List Nat) (c t l qid : Nat) (s : PubState)
    (hg : findGroup qid s.groups = none) :
    do_call1 reacts c t l qid s = { s with released := s.released ++ [c] } := by
  unfold do_call1
  rw [hg]

theorem do_call1_eq_group (reacts : Nat → Nat → List Nat) (c t l qid : Nat) (s : PubState)
    (g : Group) (hg : findGroup qid s.groups = some g) :
    do_call1 reacts c t l qid s = do_call1Group reacts c t l s g := by
  unfold do_call1
  rw [hg]

theorem do_call1_eq_miss (reacts : Nat → Nat → List Nat) (c t l qid : Nat) (s : PubState)
    (g : Group) (hg : findGroup qid s.groups = some g)
    (hf : g.entries.find? (fun e => e.listener == l) = none) :
    do_call1 reacts c t l qid s = { s with released := s.released ++ [c] } := by
  rw [do_call1_eq_group reacts c t l qid s g hg]
  unfold do_call1Group
  rw [hf]

theorem do_call1_eq_found (reacts : Nat → Nat → List Nat) (c t l qid : Nat) (s : PubState)
    (g : Group) (e : Entry) (hg : findGroup qid s.groups = some g)
    (hf : g.entries.find? (fun e => e.listener == l) = some e) (hts : e.timestamp < t) :
    do_call1 reacts c t l qid s
      = reactRemovals (reacts c l) { s with invocations := s.invocations ++ [(l, c)] } := by
  rw [do_call1_eq_group reacts c t l qid s g hg]
  unfold do_call1Group
  rw [hf]
  simp [hts]

theorem do_call1_eq_stale (reacts : Nat → Nat → List Nat) (c t l qid : Nat) (s : PubState)
    (g : Group) (e : Entry) (hg : findGroup qid s.groups = some g)
    (hf : g.entries.find? (fun e => e.listener == l) = some e) (hts : ¬ e.timestamp < t) :
    do_call1 reacts c t l qid s = { s with released := s.released ++ [c] } := by
  rw [do_call1_eq_group reacts c t l qid s g hg]
  unfold do_call1Group
  rw [hf]
  simp [hts]

theorem doProxyWork_eq_none (reacts : Nat → Nat → List Nat) (k t qid : Nat) (s : PubState)
    (hp : getPending k qid s.proxies = none) :
    doProxyWork reacts k t qid s = s := by
  unfold doProxyWork
  rw [hp]

theorem doProxyWork_eq_some (reacts : Nat → Nat → List Nat) (k t qid : Nat) (s : PubState)
    (c : Nat) (hp : getPending k qid s.proxies = some c) :
    doProxyWork reacts k t qid s
      = do_call reacts c t qid { s with proxies := setPendingP k qid none s.proxies } := by
  unfold doProxyWork
  rw [hp]

theorem runWork_groupCall (reacts : Nat → Nat → List Nat) (qid c t : Nat) (s : PubState) :
    runWork reacts qid s (Work.groupCall c t) = do_call reacts c t qid s := rfl

theorem runWork_groupCall1 (reacts : Nat → Nat → List Nat) (qid c t l : Nat) (s : PubState) :
    runWork reacts qid s (Work.groupCall1 c t l) = do_call1 reacts c t l qid s := rfl

theorem runWork_proxyCall (reacts : Nat → Nat → List Nat) (qid k t : Nat) (s : PubState) :
    runWork reacts qid s (Work.proxyCall k t) = doProxyWork reacts k t qid s := rfl

theorem do_call_frame (reacts : Nat → Nat → List Nat) (c t qid : Nat) (s : PubState) :
    (do_call reacts c t qid s).tick = s.tick
    ∧ (do_call reacts c t qid s).proxies = s.proxies
    ∧ (do_call reacts c t qid s).queues = s.queues
    ∧ (do_call reacts c t qid s).released = s.released
    ∧ ∃ d, (do_call reacts c t qid s).invocations = s.invocations ++ d := by
  cases hg : findGroup qid s.groups with
  | none =>
    rw [do_call_none reacts c t qid s hg]
    exact ⟨rfl, rfl, rfl, rfl, [], by simp⟩
  | some g =>
    rw [do_call_some reacts c t qid s g hg]
    exact doCallLoop_frame reacts c t qid g.entries s

theorem do_call1_frame (reacts : Nat → Nat → List Nat) (c t l qid : Nat) (s : PubState) :
    (do_call1 reacts c t l qid s).tick = s.tick
    ∧ (do_call1 reacts c t l qid s).proxies = s.proxies
    ∧ (do_call1 reacts c t l qid s).queues = s.queues
    ∧ (∃ d, (do_call1 reacts c t l qid s).invocations = s.invocations ++ d)
    ∧ ∃ r, (do_call1 reacts c t l qid s).released = s.released ++ r := by
  cases hg : findGroup qid s.groups with
  | none =>
    rw [do_call1_eq_nogroup reacts c t l qid s hg]
    exact ⟨rfl, rfl, rfl, ⟨[], by simp⟩, [c], rfl⟩
  | some g =>
    cases hf : g.entries.find? (fun e => e.listener == l) with
    | none =>
      rw [do_call1_eq_miss reacts c t l qid s g hg hf]
      exact ⟨rfl, rfl, rfl, ⟨[], by simp⟩, [c], rfl⟩
    | some e =>
      by_cases hts : e.timestamp < t
      · rw [do_call1_eq_found reacts c t l qid s g e hg hf hts]
        obtain ⟨r1, r2, r3, r4, r5⟩ := reactRemovals_frame (reacts c l)
          { s with invocations := s.invocations ++ [(l, c)] }
        exact ⟨r1, r2, r3, ⟨[(l, c)], by rw [r4]⟩, [], by rw [r5]; simp⟩
      · rw [do_call1_eq_stale reacts c t l qid s g e hg hf hts]
        exact ⟨rfl, rfl, rfl, ⟨[], by simp⟩, [c], rfl⟩

theorem doProxyWork_frame (reacts : Nat → Nat → List Nat) (k t qid : Nat) (s : PubState) :
    (doProxyWork reacts k t qid s).tick = s.tick
    ∧ (doProxyWork reacts k t qid s).queues = s.queues
    ∧ (∃ d, (doProxyWork reacts k t qid s).invocations = s.invocations ++ d)
    ∧ (doProxyWork reacts k t qid s).released = s.released := by
  cases hp : getPending k qid s.proxies with
  | none =>
    rw [doProxyWork_eq_none reacts k t qid s hp]
    exact ⟨rfl, rfl, ⟨[], by simp⟩, rfl⟩
  | some c =>
    rw [doProxyWork_eq_some reacts k t qid s c hp]
    obtain ⟨f1, f2, f3, f4, d, hd⟩ := do_call_frame reacts c t qid
      { s with proxies := setPendingP k qid none s.proxies }
    exact ⟨f1, f3, ⟨d, hd⟩, f4⟩

theorem runWork_frame (reacts : Nat → Nat → List Nat) (qid : Nat) (s : PubState) (w : Work) :
    (runWork reacts qid s w).tick = s.tick
    ∧ (runWork reacts qid s w).queues = s.queues
    ∧ (∃ d, (runWork reacts qid s w).invocations = s.invocations ++ d)
    ∧ ∃ r, (runWork reacts qid s w).released = s.released ++ r := by
  cases w with
  | groupCall c t =>
    rw [runWork_groupCall]
    obtain ⟨f1, f2, f3, f4, d, hd⟩ := do_call_frame reacts c t qid s
    exact ⟨f1, f3, ⟨d, hd⟩, [], by rw [f4]; simp⟩
  | groupCall1 c t l =>
    rw [runWork_groupCall1]
    obtain ⟨f1, f2, f3, f4, f5⟩ := do_call1_frame reacts c t l qid s
    exact ⟨f1, f3, f4, f5⟩
  | proxyCall k t =>
    rw [runWork_proxyCall]
    obtain ⟨f1, f2, f3, f4⟩ := doProxyWork_frame reacts k t qid s
    exact ⟨f1, f2, f3, [], by rw [f4]; simp⟩

theorem foldRunWork_frame (reacts : Nat → Nat → List Nat) (qid : Nat) :
    ∀ (ws : List Work) (s : PubState),
      (ws.foldl (runWork reacts qid) s).tick = s.tick
      ∧ (ws.foldl (runWork reacts qid) s).queues = s.queues
      ∧ (∃ d, (ws.foldl (runWork reacts qid) s).invocations = s.invocations ++ d)
      ∧ ∃ r, (ws.foldl (runWork reacts qid) s).released = s.released ++ r := by
  intro ws
  induction ws with
  | nil => intro s; exact ⟨rfl, rfl, ⟨[], by simp⟩, [], by simp⟩
  | cons w ws ih =>
    intro s
    obtain ⟨w1, w2, ⟨d1, hd1⟩, r1, hr1⟩ := runWork_frame reacts qid s w
    obtain ⟨i1, i2, ⟨d2, hd2⟩, r2, hr2⟩ := ih (runWork reacts qid s w)
    refine ⟨by rw [List.foldl_cons, i1, w1], by rw [List.foldl_cons, i2, w2],
      ⟨d1 ++ d2, ?_⟩, r1 ++ r2, ?_⟩
    · rw [List.foldl_cons, hd2, hd1, List.append_assoc]
    · rw [List.foldl_cons, hr2, hr1, List.append_assoc]

theorem drainQueue_eq_none (reacts : Nat → Nat → List Nat) (qid : Nat) (s : PubState)
    (hw : queueWork qid s = none) :
    drainQueue reacts qid s = s := by
  unfold drainQueue
  rw [hw]

theorem drainQueue_eq_some (reacts : Nat → Nat → List Nat) (qid : Nat) (s : PubState)
    (ws : List Work) (hw : queueWork qid s = some ws) :
    drainQueue reacts qid s = ws.foldl (runWork reacts qid) (setQueueWork qid [] s) := by
  unfold drainQueue
  rw [hw]

theorem queueWork_of_queues_eq (s s' : PubState) (h : s'.queues = s.queues) (qid : Nat) :
    queueWork qid s' = queueWork qid s := by
  unfold queueWork
  rw [h]

theorem queueThread_of_queues_eq (s s' : PubState) (h : s'.queues = s.queues) (qid : Nat) :
    queueThread qid s' = queueThread qid s := by
  unfold queueThread
  rw [h]

theorem drainQueue_frame (reacts : Nat → Nat → List Nat) (qid : Nat) (s : PubState) :
    (drainQueue reacts qid s).tick = s.tick
    ∧ (∃ d, (drainQueue reacts qid s).invocations = s.invocations ++ d)
    ∧ (∃ r, (drainQueue reacts qid s).released = s.released ++ r)
    ∧ queueWork qid (drainQueue reacts qid s) = (queueWork qid s).map (fun _ => [])
    ∧ (∀ qid', qid' ≠ qid → queueWork qid' (drainQueue reacts qid s) = queueWork qid' s)
    ∧ ∀ qid', queueThread qid' (drainQueue reacts qid s) = queueThread qid' s := by
  cases hw : queueWork qid s with
  | none =>
    rw [drainQueue_eq_none reacts qid s hw]
    exact ⟨rfl, ⟨[], by simp⟩, ⟨[], by simp⟩, by rw [hw]; rfl, fun _ _ => rfl, fun _ => rfl⟩
  | some ws =>
    rw [drainQueue_eq_some reacts qid s ws hw]
    obtain ⟨f1, f2, f3, f4⟩ := foldRunWork_frame reacts qid ws (setQueueWork qid [] s)
    have hqw : ∀ qid', queueWork qid' (ws.foldl (runWork reacts qid) (setQueueWork qid [] s))
        = queueWork qid' (setQueueWork qid [] s) :=
      fun qid' => queueWork_of_queues_eq (setQueueWork qid [] s) _ f2 qid'
    have hqt : ∀ qid', queueThread qid' (ws.foldl (runWork reacts qid) (setQueueWork qid [] s))
        = queueThread qid' (setQueueWork qid [] s) :=
      fun qid' => queueThread_of_queues_eq (setQueueWork qid [] s) _ f2 qid'
    refine ⟨f1, f3, f4, ?_, ?_, ?_⟩
    · rw [hqw qid, queueWork_setQueueWork_self, hw]
    · intro qid' hne
      rw [hqw qid', queueWork_setQueueWork_ne qid' qid [] s hne]
    · intro qid'
      rw [hqt qid', queueThread_setQueueWork qid' qid [] s]

theorem do_call1_noReact_groups (c t l qid : Nat) (s : PubState) :
    (do_call1 noReact c t l qid s).groups = s.groups := by
  cases hg : findGroup qid s.groups with
  | none => rw [do_call1_eq_nogroup noReact c t l qid s hg]
  | some g =>
    cases hf : g.entries.find? (fun e => e.listener == l) with
    | none => rw [do_call1_eq_miss noReact c t l qid s g hg hf]
    | some e =>
      by_cases hts : e.timestamp < t
      · rw [do_call1_eq_found noReact c t l qid s g e hg hf hts]
        rfl
      · rw [do_call1_eq_stale noReact c t l qid s g e hg hf hts]

theorem do_call_noReact_groups (c t qid : Nat) (s : PubState) :
    (do_call noReact c t qid s).groups = s.groups := by
  cases hg : findGroup qid s.groups with
  | none => rw [do_call_none noReact c t qid s hg]
  | some g =>
    rw [do_call_some noReact c t qid s g hg]
    exact doCallLoop_noReact_groups c t qid g.entries s

theorem doProxyWork_noReact_groups (k t qid : Nat) (s : PubState) :
    (doProxyWork noReact k t qid s).groups = s.groups := by
  cases hp : getPending k qid s.proxies with
  | none => rw [doProxyWork_eq_none noReact k t qid s hp]
  | some c =>
    rw [doProxyWork_eq_some noReact k t qid s c hp]
    exact do_call_noReact_groups c t qid _

theorem runWork_noReact_groups (qid : Nat) (s : PubState) (w : Work) :
    (runWork noReact qid s w).groups = s.groups := by
  cases w with
  | groupCall c t => exact do_call_noReact_groups c t qid s
  | groupCall1 c t l => exact do_call1_noReact_groups c t l qid s
  | proxyCall k t => exact doProxyWork_noReact_groups k t qid s

theorem foldRunWork_noReact_groups (qid : Nat) :
    ∀ (ws : List Work) (s : PubState),
      (ws.foldl (runWork noReact qid) s).groups = s.groups := by
  intro ws
  induction ws with
  | nil => intro s; rfl
  | cons w ws ih =>
    intro s
    rw [List.foldl_cons, ih, runWork_noReact_groups]

theorem drainQueue_noReact_groups (qid : Nat) (s : PubState) :
    (drainQueue noReact qid s).groups = s.groups := by
  cases hw : queueWork qid s with
  | none => rw [drainQueue_eq_none noReact qid s hw]
  | some ws =>
    rw [drainQueue_eq_some noReact qid s ws hw, foldRunWork_noReact_groups]
    rfl

/-!  Helper lemmas: an unregistered subscriber stays unregistered (absent
re-`add`) and receives no invocation, through every executor. -/

theorem registered_of_mem (s : PubState) (g : Group) (e : Entry)
    (hg : g ∈ s.groups) (he : e ∈ g.entries) : registered e.listener s = true := by
  unfold registered
  rw [List.any_eq_true]
  refine ⟨g, hg, ?_⟩
  rw [List.any_eq_true]
  exact ⟨e, he, by simp⟩

theorem entryLive_registered (qid : Nat) (e : Entry) (s : PubState)
    (h : entryLive qid e s = true) : registered e.listener s = true := by
  unfold entryLive at h
  cases hg : findGroup qid s.groups with
  | none =>
    rw [hg] at h
    exact absurd h (by simp)
  | some g =>
    rw [hg] at h
    have he : e ∈ g.entries := of_decide_eq_true h
    exact registered_of_mem s g e (List.mem_of_find?_eq_some hg) he

theorem find?_entry_props (l : Nat) (es : List Entry) (e : Entry)
    (hf : es.find? (fun e => e.listener == l) = some e) : e ∈ es ∧ e.listener = l := by
  have h1 := List.mem_of_find?_eq_some hf
  have h2 := List.find?_some hf
  simp at h2
  exact ⟨h1, h2⟩

theorem invocationsOf_of_eq (S : Nat) (s s' : PubState)
    (h : s'.invocations = s.invocations) : invocationsOf S s' = invocationsOf S s := by
  unfold invocationsOf
  rw [h]

theorem invocationsOf_append_ne (S l c : Nat) (s : PubState) (hne : l ≠ S) :
    invocationsOf S { s with invocations := s.invocations ++ [(l, c)] }
      = invocationsOf S s := by
  unfold invocationsOf
  simp [List.filter_append, hne]

theorem doCallLoop_unregistered (reacts : Nat → Nat → List Nat) (S c t qid : Nat) :
    ∀ (es : List Entry) (s : PubState), registered S s = false →
      registered S (doCallLoop reacts c t qid es s) = false
      ∧ invocationsOf S (doCallLoop reacts c t qid es s) = invocationsOf S s := by
  intro es
  induction es with
  | nil => intro s h; exact ⟨h, rfl⟩
  | cons e es ih =>
    intro s h
    rw [doCallLoop_cons]
    by_cases hcond : e.timestamp < t ∧ entryLive qid e s = true
    · rw [if_pos hcond]
      have hr : registered e.listener s = true := entryLive_registered qid e s hcond.2
      have hne : e.listener ≠ S := by
        intro hh
        rw [hh, h] at hr
        exact Bool.noConfusion hr
      have h1 : registered S { s with invocations := s.invocations ++ [(e.listener, c)] }
          = false := h
      obtain ⟨r1, r2, r3, r4, r5⟩ := reactRemovals_frame (reacts c e.listener)
        { s with invocations := s.invocations ++ [(e.listener, c)] }
      have h2 : registered S (reactRemovals (reacts c e.listener)
          { s with invocations := s.invocations ++ [(e.listener, c)] }) = false :=
        registered_reactRemovals S (reacts c e.listener) _ h1
      obtain ⟨ih1, ih2⟩ := ih _ h2
      refine ⟨ih1, ?_⟩
      rw [ih2, invocationsOf_of_eq S _ _ r4, invocationsOf_append_ne S e.listener c s hne]
    · rw [if_neg hcond]
      exact ih s h

theorem do_call_unregistered (reacts : Nat → Nat → List Nat) (S c t qid : Nat) (s : PubState)
    (h : registered S s = false) :
    registered S (do_call reacts c t qid s) = false
    ∧ invocationsOf S (do_call reacts c t qid s) = invocationsOf S s := by
  cases hg : findGroup qid s.groups with
  | none =>
    rw [do_call_none reacts c t qid s hg]
    exact ⟨h, rfl⟩
  | some g =>
    rw [do_call_some reacts c t qid s g hg]
    exact doCallLoop_unregistered reacts S c t qid g.entries s h

theorem do_call1_unregistered (reacts : Nat → Nat → List Nat) (S c t l qid : Nat)
    (s : PubState) (h : registered S s = false) :
    registered S (do_call1 reacts c t l qid s) = false
    ∧ invocationsOf S (do_call1 reacts c t l qid s) = invocationsOf S s := by
  cases hg : findGroup qid s.groups with
  | none =>
    rw [do_call1_eq_nogroup reacts c t l qid s hg]
    exact ⟨h, rfl⟩
  | some g =>
    cases hf : g.entries.find? (fun e => e.listener == l) with
    | none =>
      rw [do_call1_eq_miss reacts c t l qid s g hg hf]
      exact ⟨h, rfl⟩
    | some e =>
      by_cases hts : e.timestamp < t
      · rw [do_call1_eq_found reacts c t l qid s g e hg hf hts]
        obtain ⟨hmem, hel⟩ := find?_entry_props l g.entries e hf
        have hr : registered l s = true := by
          rw [← hel]
          exact registered_of_mem s g e (List.mem_of_find?_eq_some hg) hmem
        have hne : l ≠ S := by
          intro hh
          rw [hh, h] at hr
          exact Bool.noConfusion hr
        have h1 : registered S { s with invocations := s.invocations ++ [(l, c)] }
            = false := h
        obtain ⟨r1, r2, r3, r4, r5⟩ := reactRemovals_frame (reacts c l)
          { s with invocations := s.invocations ++ [(l, c)] }
        refine ⟨registered_reactRemovals S (reacts c l) _ h1, ?_⟩
        rw [invocationsOf_of_eq S _ _ r4, invocationsOf_append_ne S l c s hne]
      · rw [do_call1_eq_stale reacts c t l qid s g e hg hf hts]
        exact ⟨h, rfl⟩

theorem doProxyWork_unregistered (reacts : Nat → Nat → List Nat) (S k t qid : Nat)
    (s : PubState) (h : registered S s = false) :
    registered S (doProxyWork reacts k t qid s) = false
    ∧ invocationsOf S (doProxyWork reacts k t qid s) = invocationsOf S s := by
  cases hp : getPending k qid s.proxies with
  | none =>
    rw [doProxyWork_eq_none reacts k t qid s hp]
    exact ⟨h, rfl⟩
  | some c =>
    rw [doProxyWork_eq_some reacts k t qid s c hp]
    exact do_call_unregistered reacts S c t qid
      { s with proxies := setPendingP k qid none s.proxies } h

theorem runWork_unregistered (reacts : Nat → Nat → List Nat) (S qid : Nat) (s : PubState)
    (w : Work) (h : registered S s = false) :
    registered S (runWork reacts qid s w) = false
    ∧ invocationsOf S (runWork reacts qid s w) = invocationsOf S s := by
  cases w with
  | groupCall c t =>
    rw [runWork_groupCall]
    exact do_call_unregistered reacts S c t qid s h
  | groupCall1 c t l =>
    rw [runWork_groupCall1]
    exact do_call1_unregistered reacts S c t l qid s h
  | proxyCall k t =>
    rw [runWork_proxyCall]
    exact doProxyWork_unregistered reacts S k t qid s h

theorem foldRunWork_unregistered (reacts : Nat → Nat → List Nat) (S qid : Nat) :
    ∀ (ws : List Work) (s : PubState), registered S s = false →
      registered S (ws.foldl (runWork reacts qid) s) = false
      ∧ invocationsOf S (ws.foldl (runWork reacts qid) s) = invocationsOf S s := by
  intro ws
  induction ws with
  | nil => intro s h; exact ⟨h, rfl⟩
  | cons w ws ih =>
    intro s h
    rw [List.foldl_cons]
    obtain ⟨h1, h2⟩ := runWork_unregistered reacts S qid s w h
    obtain ⟨h3, h4⟩ := ih (runWork reacts qid s w) h1
    exact ⟨h3, by rw [h4, h2]⟩

theorem drainQueue_unregistered (reacts : Nat → Nat → List Nat) (S qid : Nat) (s : PubState)
    (h : registered S s = false) :
    registered S (drainQueue reacts qid s) = false
    ∧ invocationsOf S (drainQueue reacts qid s) = invocationsOf S s := by
  cases hw : queueWork qid s with
  | none =>
    rw [drainQueue_eq_none reacts qid s hw]
    exact ⟨h, rfl⟩
  | some ws =>
    rw [drainQueue_eq_some reacts qid s ws hw]
    exact foldRunWork_unregistered reacts S qid ws (setQueueWork qid [] s) h

/-!  Helper lemmas about the publish operations. -/

theorem registered_of_groups_eq (S : Nat) (s s' : PubState) (h : s'.groups = s.groups) :
    registered S s' = registered S s := by
  unfold registered
  rw [h]

theorem queueOp_eq (c : Nat) (s : PubState) :
    queueOp c s = s.groups.foldl (queueStep c (s.tick + 1)) { s with tick := s.tick + 1 } := rfl

theorem callOp_eq (reacts : Nat → Nat → List Nat) (thread c : Nat) (s : PubState) :
    callOp reacts thread c s
      = s.groups.foldl (callStep reacts thread c (s.tick + 1)) { s with tick := s.tick + 1 } :=
  rfl

theorem foldQueueStep_frame (c t : Nat) : ∀ (gs : List Group) (st : PubState),
    (gs.foldl (queueStep c t) st).tick = st.tick
    ∧ (gs.foldl (queueStep c t) st).groups = st.groups
    ∧ (gs.foldl (queueStep c t) st).proxies = st.proxies
    ∧ (gs.foldl (queueStep c t) st).invocations = st.invocations
    ∧ (gs.foldl (queueStep c t) st).released = st.released := by
  intro gs
  induction gs with
  | nil => intro st; exact ⟨rfl, rfl, rfl, rfl, rfl⟩
  | cons g gs ih =>
    intro st
    rw [List.foldl_cons]
    exact ih (queueStep c t st g)

theorem queueOp_frame (c : Nat) (s : PubState) :
    (queueOp c s).tick = s.tick + 1
    ∧ (queueOp c s).groups = s.groups
    ∧ (queueOp c s).proxies = s.proxies
    ∧ (queueOp c s).invocations = s.invocations
    ∧ (queueOp c s).released = s.released := by
  rw [queueOp_eq]
  exact foldQueueStep_frame c (s.tick + 1) s.groups { s with tick := s.tick + 1 }

theorem addToGroups_any_false (S l ts qid : Nat) (hne : l ≠ S) :
    ∀ gs : List Group,
      gs.any (fun g => g.entries.any (fun e => e.listener == S)) = false →
      (addToGroups l ts qid gs).any (fun g => g.entries.any (fun e => e.listener == S))
        = false := by
  intro gs
  induction gs with
  | nil =>
    intro _
    simp [addToGroups, hne]
  | cons g gs ih =>
    intro h
    rw [List.any_cons, Bool.or_eq_false_iff] at h
    rw [addToGroups]
    by_cases hq : (g.qid == qid) = true
    · rw [if_pos hq, List.any_cons, Bool.or_eq_false_iff]
      refine ⟨?_, h.2⟩
      rw [List.any_append, Bool.or_eq_false_iff]
      exact ⟨h.1, by simp [hne]⟩
    · rw [if_neg hq, List.any_cons, Bool.or_eq_false_iff]
      exact ⟨h.1, ih h.2⟩

theorem callStep_unregistered (reacts : Nat → Nat → List Nat) (S th c t : Nat)
    (st : PubState) (g : Group) (h : registered S st = false) :
    registered S (callStep reacts th c t st g) = false
    ∧ invocationsOf S (callStep reacts th c t st g) = invocationsOf S st := by
  unfold callStep
  by_cases hth : (queueThread g.qid (pushWork g.qid (Work.groupCall c t) st) == some th) = true
  · rw [if_pos hth]
    have h1 : registered S (pushWork g.qid (Work.groupCall c t) st) = false := h
    obtain ⟨a, b⟩ := drainQueue_unregistered reacts S g.qid _ h1
    exact ⟨a, b.trans rfl⟩
  · rw [if_neg hth]
    exact ⟨h, rfl⟩

theorem foldCallStep_unregistered (reacts : Nat → Nat → List Nat) (S th c t : Nat) :
    ∀ (gs : List Group) (st : PubState), registered S st = false →
      registered S (gs.foldl (callStep reacts th c t) st) = false
      ∧ invocationsOf S (gs.foldl (callStep reacts th c t) st) = invocationsOf S st := by
  intro gs
  induction gs with
  | nil => intro st h; exact ⟨h, rfl⟩
  | cons g gs ih =>
    intro st h
    rw [List.foldl_cons]
    obtain ⟨h1, h2⟩ := callStep_unregistered reacts S th c t st g h
    obtain ⟨h3, h4⟩ := ih (callStep reacts th c t st g) h1
    exact ⟨h3, by rw [h4, h2]⟩

theorem proxyUpdateStep_frame (k c t : Nat) (st : PubState) (pe : ProxyEntry) :
    (proxyUpdateStep k c t st pe).tick = st.tick
    ∧ (proxyUpdateStep k c t st pe).groups = st.groups
    ∧ (proxyUpdateStep k c t st pe).invocations = st.invocations := by
  unfold proxyUpdateStep
  cases hp : getPending k pe.qid st.proxies with
  | none => exact ⟨rfl, rfl, rfl⟩
  | some old => exact ⟨rfl, rfl, rfl⟩

theorem foldProxyUpdateStep_frame (k c t : Nat) : ∀ (pes : List ProxyEntry) (st : PubState),
    (pes.foldl (proxyUpdateStep k c t) st).tick = st.tick
    ∧ (pes.foldl (proxyUpdateStep k c t) st).groups = st.groups
    ∧ (pes.foldl (proxyUpdateStep k c t) st).invocations = st.invocations := by
  intro pes
  induction pes with
  | nil => intro st; exact ⟨rfl, rfl, rfl⟩
  | cons pe pes ih =>
    intro st
    rw [List.foldl_cons]
    obtain ⟨a1, a2, a3⟩ := proxyUpdateStep_frame k c t st pe
    obtain ⟨b1, b2, b3⟩ := ih (proxyUpdateStep k c t st pe)
    exact ⟨b1.trans a1, b2.trans a2, b3.trans a3⟩

theorem proxyUpdate_frame (k c t : Nat) (s : PubState) :
    (proxyUpdate k c t s).tick = s.tick
    ∧ (proxyUpdate k c t s).groups = s.groups
    ∧ (proxyUpdate k c t s).invocations = s.invocations := by
  unfold proxyUpdate
  cases hp : findProxy k s.proxies with
  | none => exact ⟨rfl, rfl, rfl⟩
  | some p => exact foldProxyUpdateStep_frame k c t p.entries s

theorem updateOp_nocreate_eq (k c : Nat) (s : PubState) (p : Proxy)
    (hp : findProxy k s.proxies = some p) :
    updateOp k c s = proxyUpdate k c (s.tick + 1) { s with tick := s.tick + 1 } := by
  unfold updateOp
  rw [hp]

theorem updateOp_create_eq (k c : Nat) (s : PubState)
    (hp : findProxy k s.proxies = none) :
    updateOp k c s
      = proxyUpdate k c (s.tick + 1)
          { s with
            tick := s.tick + 1
            proxies := s.proxies
              ++ [(⟨k, s.groups.map (fun (g : Group) => (⟨g.qid, none⟩ : ProxyEntry))⟩ : Proxy)] } := by
  unfold updateOp
  rw [hp]

theorem updateOp_frame (k c : Nat) (s : PubState) :
    (updateOp k c s).tick = s.tick + 1
    ∧ (updateOp k c s).groups = s.groups
    ∧ (updateOp k c s).invocations = s.invocations := by
  cases hp : findProxy k s.proxies with
  | none =>
    rw [updateOp_create_eq k c s hp]
    obtain ⟨a1, a2, a3⟩ := proxyUpdate_frame k c (s.tick + 1)
      { s with
        tick := s.tick + 1
        proxies := s.proxies
          ++ [(⟨k, s.groups.map (fun (g : Group) => (⟨g.qid, none⟩ : ProxyEntry))⟩ : Proxy)] }
    exact ⟨a1, a2, a3⟩
  | some p =>
    rw [updateOp_nocreate_eq k c s p hp]
    obtain ⟨a1, a2, a3⟩ := proxyUpdate_frame k c (s.tick + 1) { s with tick := s.tick + 1 }
    exact ⟨a1, a2, a3⟩

theorem call1Op_eq_nogroup (reacts : Nat → Nat → List Nat) (th l c : Nat) (s : PubState)
    (hg : findListenerGroup l s.groups = none) :
    call1Op reacts th l c s = { s with released := s.released ++ [c] } := by
  unfold call1Op
  rw [hg]

theorem call1Op_eq_group (reacts : Nat → Nat → List Nat) (th l c : Nat) (s : PubState)
    (g : Group) (hg : findListenerGroup l s.groups = some g) :
    call1Op reacts th l c s
      = if queueThread g.qid (pushWork g.qid (Work.groupCall1 c s.tick l) s) == some th then
          drainQueue reacts g.qid (pushWork g.qid (Work.groupCall1 c s.tick l) s)
        else pushWork g.qid (Work.groupCall1 c s.tick l) s := by
  unfold call1Op
  rw [hg]

theorem queue1Op_eq_nogroup (l c : Nat) (s : PubState)
    (hg : findListenerGroup l s.groups = none) :
    queue1Op l c s = { s with released := s.released ++ [c] } := by
  unfold queue1Op
  rw [hg]

theorem queue1Op_eq_group (l c : Nat) (s : PubState)
    (g : Group) (hg : findListenerGroup l s.groups = some g) :
    queue1Op l c s = pushWork g.qid (Work.groupCall1 c s.tick l) s := by
  unfold queue1Op
  rw [hg]

theorem findListenerGroup_of_unregistered (l : Nat) (s : PubState)
    (h : registered l s = false) : findListenerGroup l s.groups = none := by
  unfold findListenerGroup
  rw [List.find?_eq_none]
  intro g hg
  unfold registered at h
  rw [List.any_eq_false] at h
  exact h g hg

theorem run_nil (reacts : Nat → Nat → List Nat) (s : PubState) : run reacts s [] = s := rfl

theorem run_cons (reacts : Nat → Nat → List Nat) (s : PubState) (ev : Event)
    (evs : List Event) :
    run reacts s (ev :: evs) = run reacts (stepEv reacts s ev) evs := rfl

theorem stepEv_unregistered (reacts : Nat → Nat → List Nat) (S : Nat) (s : PubState)
    (ev : Event) (hnotadd : ∀ qid, ev ≠ Event.add S qid) (h : registered S s = false) :
    registered S (stepEv reacts s ev) = false
    ∧ invocationsOf S (stepEv reacts s ev) = invocationsOf S s := by
  cases ev with
  | add l qid =>
    have hne : l ≠ S := by
      intro hh
      exact hnotadd qid (by rw [hh])
    exact ⟨addToGroups_any_false S l s.tick qid hne s.groups h, rfl⟩
  | remove l => exact ⟨registered_remove_mono S l s h, rfl⟩
  | call th c =>
    rw [show stepEv reacts s (Event.call th c) = callOp reacts th c s from rfl, callOp_eq]
    exact foldCallStep_unregistered reacts S th c (s.tick + 1) s.groups
      { s with tick := s.tick + 1 } h
  | queueB c =>
    rw [show stepEv reacts s (Event.queueB c) = queueOp c s from rfl]
    obtain ⟨q1, q2, q3, q4, q5⟩ := queueOp_frame c s
    exact ⟨by rw [registered_of_groups_eq S s _ q2]; exact h,
      invocationsOf_of_eq S _ _ q4⟩
  | call1 th l c =>
    cases hg : findListenerGroup l s.groups with
    | none =>
      rw [show stepEv reacts s (Event.call1 th l c) = call1Op reacts th l c s from rfl,
        call1Op_eq_nogroup reacts th l c s hg]
      exact ⟨h, rfl⟩
    | some g =>
      rw [show stepEv reacts s (Event.call1 th l c) = call1Op reacts th l c s from rfl,
        call1Op_eq_group reacts th l c s g hg]
      by_cases hth : (queueThread g.qid (pushWork g.qid (Work.groupCall1 c s.tick l) s)
          == some th) = true
      · rw [if_pos hth]
        have h1 : registered S (pushWork g.qid (Work.groupCall1 c s.tick l) s) = false := h
        obtain ⟨a, b⟩ := drainQueue_unregistered reacts S g.qid _ h1
        exact ⟨a, b.trans rfl⟩
      · rw [if_neg hth]
        exact ⟨h, rfl⟩
  | queue1 l c =>
    cases hg : findListenerGroup l s.groups with
    | none =>
      rw [show stepEv reacts s (Event.queue1 l c) = queue1Op l c s from rfl,
        queue1Op_eq_nogroup l c s hg]
      exact ⟨h, rfl⟩
    | some g =>
      rw [show stepEv reacts s (Event.queue1 l c) = queue1Op l c s from rfl,
        queue1Op_eq_group l c s g hg]
      exact ⟨h, rfl⟩
  | update k c =>
    rw [show stepEv reacts s (Event.update k c) = updateOp k c s from rfl]
    obtain ⟨u1, u2, u3⟩ := updateOp_frame k c s
    exact ⟨by rw [registered_of_groups_eq S s _ u2]; exact h,
      invocationsOf_of_eq S _ _ u3⟩
  | drain qid => exact drainQueue_unregistered reacts S qid s h

theorem run_unregistered (reacts : Nat → Nat → List Nat) (S : Nat) :
    ∀ (evs : List Event) (s : PubState), registered S s = false →
      (∀ qid, Event.add S qid ∉ evs) →
      registered S (run reacts s evs) = false
      ∧ invocationsOf S (run reacts s evs) = invocationsOf S s := by
  intro evs
  induction evs with
  | nil => intro s h _; exact ⟨h, rfl⟩
  | cons ev evs ih =>
    intro s h hnotadd
    have hev : ∀ qid, ev ≠ Event.add S qid := by
      intro qid hh
      exact hnotadd qid (by rw [← hh]; exact List.mem_cons_self ev evs)
    obtain ⟨h1, h2⟩ := stepEv_unregistered reacts S s ev hev h
    have hrest : ∀ qid, Event.add S qid ∉ evs := by
      intro qid hmem
      exact hnotadd qid (List.mem_cons_of_mem ev hmem)
    obtain ⟨h3, h4⟩ := ih (stepEv reacts s ev) h1 hrest
    refine ⟨?_, ?_⟩
    · rw [run_cons]
      exact h3
    · rw [run_cons, h4, h2]

theorem self_remove_scenario (reacts : Nat → Nat → List Nat) (c t qid S1 S2 a1 a2 : Nat)
    (s : PubState) (hgs : s.groups = [⟨qid, [⟨S1, a1⟩, ⟨S2, a2⟩]⟩])
    (hne : S1 ≠ S2) (h1 : a1 < t) (h2 : a2 < t)
    (hr1 : reacts c S1 = [S1]) (hr2 : reacts c S2 = []) :
    (do_call reacts c t qid s).invocations = s.invocations ++ [(S1, c), (S2, c)]
    ∧ registered S1 (do_call reacts c t qid s) = false := by
  have hS21 : (S2 == S1) = false := beq_eq_false_iff_ne.mpr (Ne.symm hne)
  have hfind : findGroup qid s.groups = some ⟨qid, [⟨S1, a1⟩, ⟨S2, a2⟩]⟩ := by
    rw [hgs]
    simp [findGroup]
  have hlive1 : entryLive qid ⟨S1, a1⟩ s = true := by
    unfold entryLive
    rw [hfind]
    simp
  have hany : (([⟨S1, a1⟩, ⟨S2, a2⟩] : List Entry).any (fun e => e.listener == S1)) = true := by
    simp
  have hfilter : (([⟨S1, a1⟩, ⟨S2, a2⟩] : List Entry).filter (fun e => !(e.listener == S1)))
      = [⟨S2, a2⟩] := by
    simp [hS21]
  have hst2groups :
      (removeListener S1 { s with invocations := s.invocations ++ [(S1, c)] }).groups
        = [⟨qid, [⟨S2, a2⟩]⟩] := by
    show removeFromGroups S1 s.groups = _
    rw [hgs, removeFromGroups, if_pos hany, hfilter,
      if_neg (by simp : ¬(([⟨S2, a2⟩] : List Entry).isEmpty = true))]
  have hfind2 : findGroup qid
      (removeListener S1 { s with invocations := s.invocations ++ [(S1, c)] }).groups
        = some ⟨qid, [⟨S2, a2⟩]⟩ := by
    rw [hst2groups]
    simp [findGroup]
  have hlive2 : entryLive qid ⟨S2, a2⟩
      (removeListener S1 { s with invocations := s.invocations ++ [(S1, c)] }) = true := by
    unfold entryLive
    rw [hfind2]
    simp
  have hloop : do_call reacts c t qid s
      = { removeListener S1 { s with invocations := s.invocations ++ [(S1, c)] } with
            invocations :=
              (removeListener S1
                { s with invocations := s.invocations ++ [(S1, c)] }).invocations
                ++ [(S2, c)] } := by
    rw [do_call_some reacts c t qid s _ hfind]
    rw [doCallLoop_cons, if_pos ⟨h1, hlive1⟩, hr1]
    rw [show reactRemovals [S1] { s with invocations := s.invocations ++ [(S1, c)] }
          = removeListener S1 { s with invocations := s.invocations ++ [(S1, c)] } from rfl]
    rw [doCallLoop_cons, if_pos ⟨h2, hlive2⟩, hr2]
    rw [doCallLoop_nil]
    rfl
  constructor
  · rw [hloop]
    show (removeListener S1 { s with invocations := s.invocations ++ [(S1, c)] }).invocations
        ++ [(S2, c)] = s.invocations ++ [(S1, c), (S2, c)]
    rw [show (removeListener S1
          { s with invocations := s.invocations ++ [(S1, c)] }).invocations
        = s.invocations ++ [(S1, c)] from rfl]
    simp
  · rw [hloop]
    rw [registered_of_groups_eq S1 _ _
      (show ({ removeListener S1 { s with invocations := s.invocations ++ [(S1, c)] } with
          invocations :=
            (removeListener S1
              { s with invocations := s.invocations ++ [(S1, c)] }).invocations
              ++ [(S2, c)] } : PubState).groups
        = (removeListener S1 { s with invocations := s.invocations ++ [(S1, c)] }).groups
        from rfl)]
    rw [show registered S1
          (removeListener S1 { s with invocations := s.invocations ++ [(S1, c)] })
        = ([⟨qid, [⟨S2, a2⟩]⟩] : List Group).any
            (fun g => g.entries.any (fun e => e.listener == S1)) from by
      unfold registered
      rw [hst2groups]]
    simp [hS21]

/-- C4: after `remove (S)` returns, S is unregistered (under the
invariant that S has at most one Entry across the publisher's Groups),
and from any state in which S is unregistered, no later operation — a
broadcast dispatched later, already-queued work being drained, targeted
or coalesced publishes, other adds or removes — ever invokes S again,
as long as S is not re-added; moreover, if S1 removes itself while its
own notification is being delivered, S1 is invoked exactly once and the
later Entry in the same delivery loop (S2) still executes. -/
theorem remove_terminates_delivery :
    (∀ (s : PubState) (S : Nat),
        (s.groups.filter (fun g => g.entries.any (fun e => e.listener == S))).length ≤ 1 →
        registered S (removeListener S s) = false)
    ∧ (∀ (reacts : Nat → Nat → List Nat) (s : PubState) (S : Nat) (evs : List Event),
        registered S s = false → (∀ qid, Event.add S qid ∉ evs) →
        registered S (run reacts s evs) = false
        ∧ invocationsOf S (run reacts s evs) = invocationsOf S s)
    ∧ (∀ (reacts : Nat → Nat → List Nat) (c t qid S1 S2 a1 a2 : Nat) (s : PubState),
        s.groups = [⟨qid, [⟨S1, a1⟩, ⟨S2, a2⟩]⟩] → S1 ≠ S2 → a1 < t → a2 < t →
        reacts c S1 = [S1] → reacts c S2 = [] →
        (do_call reacts c t qid s).invocations = s.invocations ++ [(S1, c), (S2, c)]
        ∧ registered S1 (do_call reacts c t qid s) = false) :=
  ⟨fun s S h => registered_remove_self S s h,
   fun reacts s S evs h hna => run_unregistered reacts S evs s h hna,
   fun reacts c t qid S1 S2 a1 a2 s hgs hne h1 h2 hr1 hr2 =>
     self_remove_scenario reacts c t qid S1 S2 a1 a2 s hgs hne h1 h2 hr1 hr2⟩

/-- C4 witness: a publisher with one Group on queue 1 holding listener 7;
after `remove (7)`, 7 is unregistered and a broadcast-plus-drain run
invokes it never; in the self-remove scenario (7 removes itself, 8 is
next), 7 is invoked once and 8 still executes. -/
theorem remove_terminates_delivery_witness :
    (registered 7 (removeListener 7
        (⟨0, [⟨1, [⟨7, 0⟩]⟩], [], [⟨1, 0, []⟩], [], []⟩ : PubState)) = false)
    ∧ (registered 7 (run noReact
          (⟨0, [⟨1, [⟨9, 0⟩]⟩], [], [⟨1, 0, []⟩], [], []⟩ : PubState)
          [Event.queueB 5, Event.drain 1]) = false
        ∧ invocationsOf 7 (run noReact
            (⟨0, [⟨1, [⟨9, 0⟩]⟩], [], [⟨1, 0, []⟩], [], []⟩ : PubState)
            [Event.queueB 5, Event.drain 1])
          = invocationsOf 7 (⟨0, [⟨1, [⟨9, 0⟩]⟩], [], [⟨1, 0, []⟩], [], []⟩ : PubState))
    ∧ ((do_call (fun _ l => if l == 7 then [7] else []) 9 1 1
          (⟨0, [⟨1, [⟨7, 0⟩, ⟨8, 0⟩]⟩], [], [⟨1, 0, []⟩], [], []⟩ : PubState)).invocations
        = [] ++ [(7, 9), (8, 9)]
        ∧ registered 7 (do_call (fun _ l => if l == 7 then [7] else []) 9 1 1
            (⟨0, [⟨1, [⟨7, 0⟩, ⟨8, 0⟩]⟩], [], [⟨1, 0, []⟩], [], []⟩ : PubState)) = false) :=
  ⟨remove_terminates_delivery.1 ⟨0, [⟨1, [⟨7, 0⟩]⟩], [], [⟨1, 0, []⟩], [], []⟩ 7 (by decide),
   remove_terminates_delivery.2.1 noReact ⟨0, [⟨1, [⟨9, 0⟩]⟩], [], [⟨1, 0, []⟩], [], []⟩ 7
     [Event.queueB 5, Event.drain 1] (by decide)
     (by intro qid h; simp at h),
   remove_terminates_delivery.2.2 (fun _ l => if l == 7 then [7] else []) 9 1 1 7 8 0 0
     ⟨0, [⟨1, [⟨7, 0⟩, ⟨8, 0⟩]⟩], [], [⟨1, 0, []⟩], [], []⟩ rfl (by decide) (by decide)
     (by decide) rfl rfl⟩

theorem do_call1_unregistered_eq (reacts : Nat → Nat → List Nat) (c t S qid : Nat)
    (s : PubState) (h : registered S s = false) :
    do_call1 reacts c t S qid s = { s with released := s.released ++ [c] } := by
  cases hg : findGroup qid s.groups with
  | none => exact do_call1_eq_nogroup reacts c t S qid s hg
  | some g =>
    have hmem : g ∈ s.groups := List.mem_of_find?_eq_some hg
    have hany : g.entries.any (fun e => e.listener == S) = false := by
      unfold registered at h
      rw [List.any_eq_false] at h
      exact Bool.eq_false_iff.mpr (h g hmem)
    have hf : g.entries.find? (fun e => e.listener == S) = none := by
      rw [List.find?_eq_none]
      intro e he
      rw [List.any_eq_false] at hany
      exact hany e he
    exact do_call1_eq_miss reacts c t S qid s g hg hf

/-- C6: a targeted publish (`call1` or `queue1`) to a subscriber that is
not registered in any Group of the publisher is a silent no-op — no
listener is invoked, the publisher state is unchanged, and the Call is
released without delivery; likewise, if the subscriber was removed before
already-queued targeted work executes, `do_call1` drops the Call
silently, releasing it without delivery. -/
theorem targeted_unregistered_noop :
    (∀ (reacts : Nat → Nat → List Nat) (th S c : Nat) (s : PubState),
        registered S s = false →
        call1Op reacts th S c s = { s with released := s.released ++ [c] })
    ∧ (∀ (S c : Nat) (s : PubState),
        registered S s = false →
        queue1Op S c s = { s with released := s.released ++ [c] })
    ∧ (∀ (reacts : Nat → Nat → List Nat) (c t S qid : Nat) (s : PubState),
        registered S s = false →
        runWork reacts qid s (Work.groupCall1 c t S)
          = { s with released := s.released ++ [c] }) :=
  ⟨fun reacts th S c s h =>
     call1Op_eq_nogroup reacts th S c s (findListenerGroup_of_unregistered S s h),
   fun S c s h => queue1Op_eq_nogroup S c s (findListenerGroup_of_unregistered S s h),
   fun reacts c t S qid s h =>
     (runWork_groupCall1 reacts qid c t S s).trans
       (do_call1_unregistered_eq reacts c t S qid s h)⟩

/-- C6 witness: listener 7 is unregistered (only 9 is registered on
queue 1); `call1`, `queue1` and already-queued `do_call1` work all leave
the publisher unchanged and release Call 5. -/
theorem targeted_unregistered_noop_witness :
    (registered 7 (⟨0, [⟨1, [⟨9, 0⟩]⟩], [], [⟨1, 0, []⟩], [], []⟩ : PubState) = false)
    ∧ call1Op noReact 0 7 5 (⟨0, [⟨1, [⟨9, 0⟩]⟩], [], [⟨1, 0, []⟩], [], []⟩ : PubState)
        = { (⟨0, [⟨1, [⟨9, 0⟩]⟩], [], [⟨1, 0, []⟩], [], []⟩ : PubState) with released := [5] }
    ∧ queue1Op 7 5 (⟨0, [⟨1, [⟨9, 0⟩]⟩], [], [⟨1, 0, []⟩], [], []⟩ : PubState)
        = { (⟨0, [⟨1, [⟨9, 0⟩]⟩], [], [⟨1, 0, []⟩], [], []⟩ : PubState) with released := [5] }
    ∧ runWork noReact 1 (⟨0, [⟨1, [⟨9, 0⟩]⟩], [], [⟨1, 0, []⟩], [], []⟩ : PubState)
          (Work.groupCall1 5 1 7)
        = { (⟨0, [⟨1, [⟨9, 0⟩]⟩], [], [⟨1, 0, []⟩], [], []⟩ : PubState) with released := [5] } :=
  ⟨by decide,
   targeted_unregistered_noop.1 noReact 0 7 5
     ⟨0, [⟨1, [⟨9, 0⟩]⟩], [], [⟨1, 0, []⟩], [], []⟩ (by decide),
   targeted_unregistered_noop.2.1 7 5
     ⟨0, [⟨1, [⟨9, 0⟩]⟩], [], [⟨1, 0, []⟩], [], []⟩ (by decide),
   targeted_unregistered_noop.2.2 noReact 5 1 7 1
     ⟨0, [⟨1, [⟨9, 0⟩]⟩], [], [⟨1, 0, []⟩], [], []⟩ (by decide)⟩

theorem doCallLoop_mem_iff (reacts : Nat → Nat → List Nat) (c t qid l : Nat) :
    ∀ (es : List Entry) (s : PubState),
      (l, c) ∈ (doCallLoop reacts c t qid es s).invocations ↔
        (l, c) ∈ s.invocations ∨
        ∃ es₁ e es₂, es = es₁ ++ e :: es₂ ∧ e.listener = l ∧ e.timestamp < t
          ∧ entryLive qid e (doCallLoop reacts c t qid es₁ s) = true := by
  intro es
  induction es with
  | nil =>
    intro s
    rw [doCallLoop_nil]
    constructor
    · exact fun h => Or.inl h
    · rintro (h | ⟨es₁, e, es₂, heq, _⟩)
      · exact h
      · exact absurd heq (by simp)
  | cons e₀ es ih =>
    intro s
    rw [doCallLoop_cons]
    by_cases hcond : e₀.timestamp < t ∧ entryLive qid e₀ s = true
    · rw [if_pos hcond]
      have hinv : (reactRemovals (reacts c e₀.listener)
          { s with invocations := s.invocations ++ [(e₀.listener, c)] }).invocations
          = s.invocations ++ [(e₀.listener, c)] :=
        (reactRemovals_frame (reacts c e₀.listener) _).2.2.2.1
      rw [ih]
      constructor
      · rintro (h | ⟨es₁, e, es₂, heq, hl, hts, hlive⟩)
        · rw [hinv] at h
          rcases List.mem_append.mp h with h' | h'
          · exact Or.inl h'
          · have hle : l = e₀.listener := by
              simp only [List.mem_singleton, Prod.mk.injEq] at h'
              exact h'.1
            refine Or.inr ⟨[], e₀, es, rfl, hle.symm, hcond.1, ?_⟩
            rw [doCallLoop_nil]
            exact hcond.2
        · refine Or.inr ⟨e₀ :: es₁, e, es₂, by rw [heq, List.cons_append], hl, hts, ?_⟩
          rw [doCallLoop_cons, if_pos hcond]
          exact hlive
      · rintro (h | ⟨es₁, e, es₂, heq, hl, hts, hlive⟩)
        · refine Or.inl ?_
          rw [hinv]
          exact List.mem_append_left _ h
        · cases es₁ with
          | nil =>
            simp only [List.nil_append, List.cons.injEq] at heq
            obtain ⟨he, hes⟩ := heq
            refine Or.inl ?_
            rw [hinv]
            refine List.mem_append_right _ ?_
            simp only [List.mem_singleton, Prod.mk.injEq]
            exact ⟨by rw [he, hl], trivial⟩
          | cons x es₁' =>
            simp only [List.cons_append, List.cons.injEq] at heq
            obtain ⟨hx, hes⟩ := heq
            rw [← hx] at hlive
            rw [doCallLoop_cons, if_pos hcond] at hlive
            exact Or.inr ⟨es₁', e, es₂, hes, hl, hts, hlive⟩
    · rw [if_neg hcond]
      rw [ih]
      constructor
      · rintro (h | ⟨es₁, e, es₂, heq, hl, hts, hlive⟩)
        · exact Or.inl h
        · refine Or.inr ⟨e₀ :: es₁, e, es₂, by rw [heq, List.cons_append], hl, hts, ?_⟩
          rw [doCallLoop_cons, if_neg hcond]
          exact hlive
      · rintro (h | ⟨es₁, e, es₂, heq, hl, hts, hlive⟩)
        · exact Or.inl h
        · cases es₁ with
          | nil =>
            simp only [List.nil_append, List.cons.injEq] at heq
            obtain ⟨he, hes⟩ := heq
            rw [doCallLoop_nil] at hlive
            exact absurd ⟨by rw [he]; exact hts, by rw [he]; exact hlive⟩ hcond
          | cons x es₁' =>
            simp only [List.cons_append, List.cons.injEq] at heq
            obtain ⟨hx, hes⟩ := heq
            rw [← hx] at hlive
            rw [doCallLoop_cons, if_neg hcond] at hlive
            exact Or.inr ⟨es₁', e, es₂, hes, hl, hts, hlive⟩

theorem addToGroups_find (l ts qid : Nat) :
    ∀ gs : List Group, ∃ g, (addToGroups l ts qid gs).find? (fun g => g.qid == qid) = some g
      ∧ (⟨l, ts⟩ : Entry) ∈ g.entries := by
  intro gs
  induction gs with
  | nil =>
    refine ⟨⟨qid, [⟨l, ts⟩]⟩, ?_, by simp⟩
    simp [addToGroups, List.find?]
  | cons g gs ih =>
    rw [addToGroups]
    by_cases hq : (g.qid == qid) = true
    · rw [if_pos hq]
      refine ⟨{ g with entries := g.entries ++ [⟨l, ts⟩] }, ?_, by simp⟩
      simp [List.find?, hq]
    · rw [if_neg hq]
      obtain ⟨g', h1, h2⟩ := ih
      have hq' : (g.qid == qid) = false := Bool.eq_false_iff.mpr hq
      refine ⟨g', ?_, h2⟩
      simp [List.find?, hq', h1]

theorem callStep_tick (reacts : Nat → Nat → List Nat) (th c t : Nat) (st : PubState)
    (g : Group) : (callStep reacts th c t st g).tick = st.tick := by
  unfold callStep
  by_cases hth : (queueThread g.qid (pushWork g.qid (Work.groupCall c t) st) == some th) = true
  · rw [if_pos hth]
    exact (drainQueue_frame reacts g.qid _).1
  · rw [if_neg hth]
    rfl

theorem foldCallStep_tick (reacts : Nat → Nat → List Nat) (th c t : Nat) :
    ∀ (gs : List Group) (st : PubState),
      (gs.foldl (callStep reacts th c t) st).tick = st.tick := by
  intro gs
  induction gs with
  | nil => intro st; rfl
  | cons g gs ih =>
    intro st
    rw [List.foldl_cons]
    exact (ih (callStep reacts th c t st g)).trans (callStep_tick reacts th c t st g)

theorem callOp_tick (reacts : Nat → Nat → List Nat) (th c : Nat) (s : PubState) :
    (callOp reacts th c s).tick = s.tick + 1 := by
  rw [callOp_eq]
  exact foldCallStep_tick reacts th c (s.tick + 1) s.groups { s with tick := s.tick + 1 }

/-- C1: as-of-add visibility.  (i) For a broadcast delivery `do_call`
with tick `t`, a subscriber `l` is invoked for the Call if and only if
the Group's Entry list (at delivery start) contains an Entry for `l`
whose tick-at-add is strictly less than `t` and that Entry still exists
in the live Entry list when its turn in the delivery loop comes.
(ii) When no removal interferes and `l` has the single Entry
`{l, t_add}`, the invocation happens iff `t_add < t` — i.e. the
subscriber sees every broadcast with tick `> t_add` and none with tick
`≤ t_add`.  (iii)-(v) `add` installs the Entry with the current tick
without incrementing, while `queue` and `call` increment the tick before
dispatch, so any broadcast issued after the add carries a strictly
greater tick. -/
theorem as_of_add_visibility :
    (∀ (reacts : Nat → Nat → List Nat) (c t qid l : Nat) (s : PubState) (g : Group),
        findGroup qid s.groups = some g →
        ((l, c) ∈ (do_call reacts c t qid s).invocations ↔
          (l, c) ∈ s.invocations ∨
          ∃ es₁ e es₂, g.entries = es₁ ++ e :: es₂ ∧ e.listener = l ∧ e.timestamp < t
            ∧ entryLive qid e (doCallLoop reacts c t qid es₁ s) = true))
    ∧ (∀ (c t qid S a : Nat) (s : PubState) (g : Group),
        findGroup qid s.groups = some g →
        (∀ e ∈ g.entries, e.listener = S → e = ⟨S, a⟩) →
        ((S, c) ∈ (do_call noReact c t qid s).invocations ↔
          (S, c) ∈ s.invocations ∨ ((⟨S, a⟩ : Entry) ∈ g.entries ∧ a < t)))
    ∧ (∀ (l qid : Nat) (s : PubState),
        (addListener l qid s).tick = s.tick
        ∧ ∃ g, findGroup qid (addListener l qid s).groups = some g
            ∧ (⟨l, s.tick⟩ : Entry) ∈ g.entries)
    ∧ (∀ (c : Nat) (s : PubState), (queueOp c s).tick = s.tick + 1)
    ∧ (∀ (reacts : Nat → Nat → List Nat) (th c : Nat) (s : PubState),
        (callOp reacts th c s).tick = s.tick + 1) := by
  refine ⟨?_, ?_, ?_, ?_, ?_⟩
  · intro reacts c t qid l s g hg
    rw [do_call_some reacts c t qid s g hg]
    exact doCallLoop_mem_iff reacts c t qid l g.entries s
  · intro c t qid S a s g hg huniq
    rw [do_call_noReact_eq c t qid g s hg]
    show (S, c) ∈ s.invocations
        ++ (g.entries.filter (fun e => e.timestamp < t)).map (fun e => (e.listener, c)) ↔ _
    rw [List.mem_append]
    constructor
    · rintro (h | h)
      · exact Or.inl h
      · rw [List.mem_map] at h
        obtain ⟨e, hmem, hpair⟩ := h
        rw [List.mem_filter] at hmem
        have hel : e.listener = S := by
          have := congrArg Prod.fst hpair
          exact this
        have he : e = ⟨S, a⟩ := huniq e hmem.1 hel
        refine Or.inr ⟨by rw [← he]; exact hmem.1, ?_⟩
        have hts : e.timestamp < t := of_decide_eq_true hmem.2
        rw [he] at hts
        exact hts
    · rintro (h | ⟨hmem, hts⟩)
      · exact Or.inl h
      · refine Or.inr ?_
        rw [List.mem_map]
        refine ⟨⟨S, a⟩, ?_, rfl⟩
        rw [List.mem_filter]
        exact ⟨hmem, decide_eq_true hts⟩
  · intro l qid s
    exact ⟨rfl, addToGroups_find l s.tick qid s.groups⟩
  · intro c s
    exact (queueOp_frame c s).1
  · intro reacts th c s
    exact callOp_tick reacts th c s

/-- C1 witness: listener 7 added at tick 0, broadcast with tick 1 — the
invocation record appears iff the entry is present with tick-at-add
0 < 1; applied to a concrete state, the iff yields the invocation. -/
theorem as_of_add_visibility_witness :
    (findGroup 1 ([⟨1, [⟨7, 0⟩]⟩] : List Group) = some ⟨1, [⟨7, 0⟩]⟩)
    ∧ ((7, 5) ∈ (do_call noReact 5 1 1
          (⟨1, [⟨1, [⟨7, 0⟩]⟩], [], [⟨1, 0, []⟩], [], []⟩ : PubState)).invocations ↔
        (7, 5) ∈ ([] : List (Nat × Nat))
          ∨ ((⟨7, 0⟩ : Entry) ∈ [(⟨7, 0⟩ : Entry)] ∧ 0 < 1)) :=
  ⟨by decide,
   as_of_add_visibility.2.1 5 1 1 7 0
     ⟨1, [⟨1, [⟨7, 0⟩]⟩], [], [⟨1, 0, []⟩], [], []⟩ ⟨1, [⟨7, 0⟩]⟩
     (by decide) (by decide)⟩

theorem countP_qid_eq_one (qid : Nat) :
    ∀ (gs : List Group) (g : Group), (gs.map (fun g => g.qid)).Nodup →
      gs.find? (fun g => g.qid == qid) = some g →
      gs.countP (fun g => g.qid == qid) = 1 := by
  intro gs
  induction gs with
  | nil =>
    intro g _ h
    exact absurd h (by simp)
  | cons g0 gs ih =>
    intro g hnd hf
    rw [List.map_cons, List.nodup_cons] at hnd
    by_cases hq : (g0.qid == qid) = true
    · rw [List.countP_cons_of_pos (p := fun (g : Group) => g.qid == qid) _ hq]
      have hg0 : g0.qid = qid := by simpa using hq
      have hzero : gs.countP (fun g => g.qid == qid) = 0 := by
        rw [List.countP_eq_zero]
        intro g' hg'
        have hne : g'.qid ≠ g0.qid := by
          intro hh
          exact hnd.1 (by rw [← hh]; exact List.mem_map_of_mem _ hg')
        simp only [beq_iff_eq]
        rw [← hg0]
        exact hne
      rw [hzero]
    · have hq' : ¬((fun (g : Group) => g.qid == qid) g0 = true) := hq
      rw [List.countP_cons_of_neg (p := fun (g : Group) => g.qid == qid) _ hq']
      refine ih g hnd.2 ?_
      rwa [List.find?_cons_of_neg (p := fun (g : Group) => g.qid == qid) gs hq'] at hf

theorem foldQueueStep_queueWork (c t qid : Nat) :
    ∀ (gs : List Group) (st : PubState),
      queueWork qid (gs.foldl (queueStep c t) st)
        = (queueWork qid st).map
            (fun ws => ws
              ++ List.replicate (gs.countP (fun g => g.qid == qid)) (Work.groupCall c t)) := by
  intro gs
  induction gs with
  | nil =>
    intro st
    cases h : queueWork qid st <;> simp [h]
  | cons g gs ih =>
    intro st
    rw [List.foldl_cons, ih]
    by_cases hq : (g.qid == qid) = true
    · have hg : g.qid = qid := by simpa using hq
      have hpush : queueWork qid (queueStep c t st g)
          = (queueWork qid st).map (fun ws => ws ++ [Work.groupCall c t]) := by
        rw [show queueStep c t st g = pushWork g.qid (Work.groupCall c t) st from rfl, hg,
          queueWork_pushWork_self]
      rw [hpush, List.countP_cons_of_pos (p := fun (g : Group) => g.qid == qid) _ hq]
      cases h : queueWork qid st with
      | none => rfl
      | some ws => simp [List.replicate_succ]
    · have hne : qid ≠ g.qid := by
        intro hh
        exact hq (by simp [hh])
      have hpush : queueWork qid (queueStep c t st g) = queueWork qid st :=
        queueWork_pushWork_ne qid g.qid _ st hne
      have hq' : ¬((fun (g : Group) => g.qid == qid) g = true) := hq
      rw [hpush, List.countP_cons_of_neg (p := fun (g : Group) => g.qid == qid) _ hq']

/-- C3: per-call-queue order preservation.  Starting from a freshly
drained queue, two broadcasts `c1` then `c2` (whose ticks are
`tick + 1 < tick + 2`) enqueue their work in FIFO order, and for a
subscriber S registered before both (tick-at-add `a ≤ tick`, so
`a < tick + 1`) who remains registered, draining the queue invokes S for
`c1` strictly before it invokes S for `c2`. -/
theorem per_queue_order_preservation :
    ∀ (s : PubState) (g : Group) (qid S a c1 c2 : Nat),
      findGroup qid s.groups = some g →
      (s.groups.map (fun g => g.qid)).Nodup →
      (⟨S, a⟩ : Entry) ∈ g.entries →
      a ≤ s.tick →
      queueWork qid s = some [] →
      (queueOp c1 s).tick = s.tick + 1
      ∧ (queueOp c2 (queueOp c1 s)).tick = s.tick + 2
      ∧ a < s.tick + 1
      ∧ ∃ xs ys zs,
          (drainQueue noReact qid (queueOp c2 (queueOp c1 s))).invocations
            = s.invocations ++ (xs ++ (S, c1) :: (ys ++ (S, c2) :: zs)) := by
  intro s g qid S a c1 c2 hg hnd hmem ha hw
  obtain ⟨q1tick, q1groups, _, q1inv, _⟩ := queueOp_frame c1 s
  obtain ⟨q2tick, q2groups, _, q2inv, _⟩ := queueOp_frame c2 (queueOp c1 s)
  have hcount : s.groups.countP (fun g => g.qid == qid) = 1 :=
    countP_qid_eq_one qid s.groups g hnd hg
  have hw1 : queueWork qid (queueOp c1 s)
      = some [Work.groupCall c1 (s.tick + 1)] := by
    rw [queueOp_eq, foldQueueStep_queueWork, hcount,
      queueWork_of_queues_eq s { s with tick := s.tick + 1 } rfl, hw]
    rfl
  have hcount1 : (queueOp c1 s).groups.countP (fun g => g.qid == qid) = 1 := by
    rw [q1groups]
    exact hcount
  have hw2 : queueWork qid (queueOp c2 (queueOp c1 s))
      = some [Work.groupCall c1 (s.tick + 1), Work.groupCall c2 (s.tick + 2)] := by
    rw [queueOp_eq, foldQueueStep_queueWork]
    rw [queueWork_of_queues_eq (queueOp c1 s)
      { queueOp c1 s with tick := (queueOp c1 s).tick + 1 } rfl, hw1, hcount1, q1tick]
    rfl
  refine ⟨q1tick, by rw [q2tick, q1tick], Nat.lt_succ_of_le ha, ?_⟩
  have hg2 : findGroup qid (queueOp c2 (queueOp c1 s)).groups = some g := by
    rw [show findGroup qid (queueOp c2 (queueOp c1 s)).groups
        = (queueOp c2 (queueOp c1 s)).groups.find? (fun g => g.qid == qid) from rfl,
      q2groups, q1groups]
    exact hg
  rw [drainQueue_eq_some noReact qid (queueOp c2 (queueOp c1 s)) _ hw2]
  have hg0 : findGroup qid (setQueueWork qid [] (queueOp c2 (queueOp c1 s))).groups
      = some g := hg2
  rw [List.foldl_cons, runWork_groupCall,
    do_call_noReact_eq c1 (s.tick + 1) qid g _ hg0]
  have hg1 : findGroup qid
      ({ setQueueWork qid [] (queueOp c2 (queueOp c1 s)) with
          invocations := (setQueueWork qid [] (queueOp c2 (queueOp c1 s))).invocations
            ++ (g.entries.filter (fun (e : Entry) => e.timestamp < s.tick + 1)).map
                (fun (e : Entry) => (e.listener, c1)) }).groups = some g := hg2
  rw [List.foldl_cons, runWork_groupCall,
    do_call_noReact_eq c2 (s.tick + 2) qid g _ hg1, List.foldl_nil]
  have hbase : (setQueueWork qid [] (queueOp c2 (queueOp c1 s))).invocations
      = s.invocations := by
    show (queueOp c2 (queueOp c1 s)).invocations = s.invocations
    rw [q2inv, q1inv]
  have hmem1 : (S, c1) ∈ (g.entries.filter (fun e => e.timestamp < s.tick + 1)).map
      (fun e => (e.listener, c1)) := by
    rw [List.mem_map]
    refine ⟨⟨S, a⟩, ?_, rfl⟩
    rw [List.mem_filter]
    exact ⟨hmem, decide_eq_true (Nat.lt_succ_of_le ha)⟩
  have hmem2 : (S, c2) ∈ (g.entries.filter (fun e => e.timestamp < s.tick + 2)).map
      (fun e => (e.listener, c2)) := by
    rw [List.mem_map]
    refine ⟨⟨S, a⟩, ?_, rfl⟩
    rw [List.mem_filter]
    refine ⟨hmem, decide_eq_true ?_⟩
    show a < s.tick + 2
    omega
  obtain ⟨u, v, huv⟩ := List.append_of_mem hmem1
  obtain ⟨w, x, hwx⟩ := List.append_of_mem hmem2
  refine ⟨u, v ++ w, x, ?_⟩
  show (setQueueWork qid [] (queueOp c2 (queueOp c1 s))).invocations
      ++ (g.entries.filter (fun e => e.timestamp < s.tick + 1)).map (fun e => (e.listener, c1))
      ++ (g.entries.filter (fun e => e.timestamp < s.tick + 2)).map (fun e => (e.listener, c2))
      = _
  rw [hbase, huv, hwx]
  simp [List.append_assoc]

/-- C3 witness: listener 7 added at tick 0; broadcasts 5 then 6 from
tick 0; the drain delivers (7, 5) strictly before (7, 6). -/
theorem per_queue_order_preservation_witness :
    (findGroup 1 ([⟨1, [⟨7, 0⟩]⟩] : List Group) = some ⟨1, [⟨7, 0⟩]⟩)
    ∧ ((queueOp 5 (⟨0, [⟨1, [⟨7, 0⟩]⟩], [], [⟨1, 0, []⟩], [], []⟩ : PubState)).tick = 0 + 1
        ∧ (queueOp 6 (queueOp 5
            (⟨0, [⟨1, [⟨7, 0⟩]⟩], [], [⟨1, 0, []⟩], [], []⟩ : PubState))).tick = 0 + 2
        ∧ 0 < 0 + 1
        ∧ ∃ xs ys zs,
            (drainQueue noReact 1 (queueOp 6 (queueOp 5
              (⟨0, [⟨1, [⟨7, 0⟩]⟩], [], [⟨1, 0, []⟩], [], []⟩ : PubState)))).invocations
              = [] ++ (xs ++ (7, 5) :: (ys ++ (7, 6) :: zs))) :=
  ⟨by decide,
   per_queue_order_preservation ⟨0, [⟨1, [⟨7, 0⟩]⟩], [], [⟨1, 0, []⟩], [], []⟩
     ⟨1, [⟨7, 0⟩]⟩ 1 7 0 5 6 (by decide) (by decide) (by decide) (by decide) (by decide)⟩

theorem find_of_nodup_split (g : Group) :
    ∀ (gs₁ gs₂ : List Group),
      (((gs₁ ++ g :: gs₂).map (fun g => g.qid)).Nodup) →
      (gs₁ ++ g :: gs₂).find? (fun g' => g'.qid == g.qid) = some g := by
  intro gs₁
  induction gs₁ with
  | nil =>
    intro gs₂ _
    rw [List.nil_append]
    exact List.find?_cons_of_pos _ (by simp)
  | cons g0 gs₁ ih =>
    intro gs₂ hnd
    rw [List.cons_append, List.map_cons, List.nodup_cons] at hnd
    have hne : ¬((fun (g' : Group) => g'.qid == g.qid) g0 = true) := by
      simp only [beq_iff_eq]
      intro hh
      exact hnd.1 (by rw [hh]; simp)
    rw [List.cons_append,
      List.find?_cons_of_neg (p := fun (g' : Group) => g'.qid == g.qid) _ hne]
    exact ih gs₂ hnd.2

theorem findGroup_of_mem_nodup (gs : List Group) (g : Group)
    (hmem : g ∈ gs) (hnd : (gs.map (fun g => g.qid)).Nodup) :
    findGroup g.qid gs = some g := by
  obtain ⟨gs₁, gs₂, hsplit⟩ := List.append_of_mem hmem
  subst hsplit
  exact find_of_nodup_split g gs₁ gs₂ hnd

theorem queueThread_some_queueWork (qid th : Nat) (s : PubState)
    (h : queueThread qid s = some th) : ∃ ws, queueWork qid s = some ws := by
  unfold queueThread at h
  cases hf : s.queues.find? (fun q => q.qid == qid) with
  | none =>
    rw [hf] at h
    exact absurd h (by simp)
  | some q =>
    refine ⟨q.work, ?_⟩
    unfold queueWork
    rw [hf]
    rfl

theorem callStep_noReact_groups (th c t : Nat) (st : PubState) (g : Group) :
    (callStep noReact th c t st g).groups = st.groups := by
  unfold callStep
  by_cases hth : (queueThread g.qid (pushWork g.qid (Work.groupCall c t) st) == some th) = true
  · rw [if_pos hth]
    exact drainQueue_noReact_groups g.qid _
  · rw [if_neg hth]
    rfl

theorem foldCallStep_noReact_groups (th c t : Nat) :
    ∀ (gs : List Group) (st : PubState),
      (gs.foldl (callStep noReact th c t) st).groups = st.groups := by
  intro gs
  induction gs with
  | nil => intro st; rfl
  | cons g gs ih =>
    intro st
    rw [List.foldl_cons]
    exact (ih _).trans (callStep_noReact_groups th c t st g)

theorem callStep_queueThread (reacts : Nat → Nat → List Nat) (th c t qid' : Nat)
    (st : PubState) (g : Group) :
    queueThread qid' (callStep reacts th c t st g) = queueThread qid' st := by
  unfold callStep
  by_cases hth : (queueThread g.qid (pushWork g.qid (Work.groupCall c t) st) == some th) = true
  · rw [if_pos hth]
    exact ((drainQueue_frame reacts g.qid _).2.2.2.2.2 qid').trans
      (queueThread_pushWork qid' g.qid _ st)
  · rw [if_neg hth]
    exact queueThread_pushWork qid' g.qid _ st

theorem foldCallStep_queueThread (reacts : Nat → Nat → List Nat) (th c t qid' : Nat) :
    ∀ (gs : List Group) (st : PubState),
      queueThread qid' (gs.foldl (callStep reacts th c t) st) = queueThread qid' st := by
  intro gs
  induction gs with
  | nil => intro st; rfl
  | cons g gs ih =>
    intro st
    rw [List.foldl_cons]
    exact (ih _).trans (callStep_queueThread reacts th c t qid' st g)

theorem callStep_queueWork_ne (reacts : Nat → Nat → List Nat) (th c t qid' : Nat)
    (st : PubState) (g : Group) (hne : qid' ≠ g.qid) :
    queueWork qid' (callStep reacts th c t st g) = queueWork qid' st := by
  unfold callStep
  by_cases hth : (queueThread g.qid (pushWork g.qid (Work.groupCall c t) st) == some th) = true
  · rw [if_pos hth]
    exact ((drainQueue_frame reacts g.qid _).2.2.2.2.1 qid' hne).trans
      (queueWork_pushWork_ne qid' g.qid _ st hne)
  · rw [if_neg hth]
    exact queueWork_pushWork_ne qid' g.qid _ st hne

theorem foldCallStep_queueWork_untouched (reacts : Nat → Nat → List Nat) (th c t qid' : Nat) :
    ∀ (gs : List Group) (st : PubState), qid' ∉ gs.map (fun g => g.qid) →
      queueWork qid' (gs.foldl (callStep reacts th c t) st) = queueWork qid' st := by
  intro gs
  induction gs with
  | nil => intro st _; rfl
  | cons g gs ih =>
    intro st hnotin
    rw [List.map_cons, List.mem_cons] at hnotin
    rw [List.foldl_cons]
    exact (ih _ (fun h => hnotin (Or.inr h))).trans
      (callStep_queueWork_ne reacts th c t qid' st g (fun h => hnotin (Or.inl h)))

theorem callStep_inv_mono (reacts : Nat → Nat → List Nat) (th c t : Nat)
    (st : PubState) (g : Group) :
    ∃ d, (callStep reacts th c t st g).invocations = st.invocations ++ d := by
  unfold callStep
  by_cases hth : (queueThread g.qid (pushWork g.qid (Work.groupCall c t) st) == some th) = true
  · rw [if_pos hth]
    obtain ⟨_, ⟨d, hd⟩, _⟩ := drainQueue_frame reacts g.qid _
    exact ⟨d, hd.trans rfl⟩
  · rw [if_neg hth]
    exact ⟨[], by simp [pushWork]⟩

theorem foldCallStep_inv_mono (reacts : Nat → Nat → List Nat) (th c t : Nat) :
    ∀ (gs : List Group) (st : PubState),
      ∃ d, (gs.foldl (callStep reacts th c t) st).invocations = st.invocations ++ d := by
  intro gs
  induction gs with
  | nil => intro st; exact ⟨[], by simp⟩
  | cons g gs ih =>
    intro st
    rw [List.foldl_cons]
    obtain ⟨d1, hd1⟩ := callStep_inv_mono reacts th c t st g
    obtain ⟨d2, hd2⟩ := ih (callStep reacts th c t st g)
    exact ⟨d1 ++ d2, by rw [hd2, hd1, List.append_assoc]⟩

theorem callStep_hit (th c t : Nat) (st : PubState) (g : Group)
    (hfind : findGroup g.qid st.groups = some g)
    (hth : queueThread g.qid st = some th) :
    queueWork g.qid (callStep noReact th c t st g) = some []
    ∧ ∀ e ∈ g.entries, e.timestamp < t →
        (e.listener, c) ∈ (callStep noReact th c t st g).invocations := by
  obtain ⟨ws0, hws0⟩ := queueThread_some_queueWork g.qid th st hth
  have hthP : queueThread g.qid (pushWork g.qid (Work.groupCall c t) st) = some th :=
    (queueThread_pushWork g.qid g.qid _ st).trans hth
  have hcond : (queueThread g.qid (pushWork g.qid (Work.groupCall c t) st)
      == some th) = true := by
    rw [hthP]
    exact beq_self_eq_true _
  have hstep : callStep noReact th c t st g
      = drainQueue noReact g.qid (pushWork g.qid (Work.groupCall c t) st) := by
    unfold callStep
    rw [if_pos hcond]
  have hwsP : queueWork g.qid (pushWork g.qid (Work.groupCall c t) st)
      = some (ws0 ++ [Work.groupCall c t]) := by
    rw [queueWork_pushWork_self, hws0]
    rfl
  constructor
  · rw [hstep]
    obtain ⟨_, _, _, hq, _⟩ :=
      drainQueue_frame noReact g.qid (pushWork g.qid (Work.groupCall c t) st)
    rw [hq, hwsP]
    rfl
  · intro e hmem hts
    rw [hstep, drainQueue_eq_some noReact g.qid _ _ hwsP, List.foldl_append,
      List.foldl_cons, List.foldl_nil, runWork_groupCall]
    have hgY : findGroup g.qid ((ws0.foldl (runWork noReact g.qid)
        (setQueueWork g.qid [] (pushWork g.qid (Work.groupCall c t) st)))).groups
        = some g := by
      rw [show ((ws0.foldl (runWork noReact g.qid)
          (setQueueWork g.qid [] (pushWork g.qid (Work.groupCall c t) st)))).groups
          = st.groups from (foldRunWork_noReact_groups g.qid ws0 _).trans rfl]
      exact hfind
    rw [do_call_noReact_eq c t g.qid g _ hgY]
    show (e.listener, c) ∈ _ ++ _
    refine List.mem_append_right _ ?_
    rw [List.mem_map]
    exact ⟨e, List.mem_filter.mpr ⟨hmem, decide_eq_true hts⟩, rfl⟩

theorem callOp_inline_drain (th c : Nat) (s : PubState) (g : Group)
    (hnd : (s.groups.map (fun g => g.qid)).Nodup)
    (hmem : g ∈ s.groups)
    (hth : queueThread g.qid s = some th) :
    queueWork g.qid (callOp noReact th c s) = some []
    ∧ ∀ e ∈ g.entries, e.timestamp < s.tick + 1 →
        (e.listener, c) ∈ (callOp noReact th c s).invocations := by
  obtain ⟨gs₁, gs₂, hsplit⟩ := List.append_of_mem hmem
  have hfind : findGroup g.qid s.groups = some g := findGroup_of_mem_nodup s.groups g hmem hnd
  have hnotin₂ : g.qid ∉ gs₂.map (fun g => g.qid) := by
    have hnd' := hnd
    rw [hsplit, List.map_append, List.map_cons] at hnd'
    have h2 := hnd'.of_append_right
    rw [List.nodup_cons] at h2
    exact h2.1
  rw [callOp_eq]
  generalize hS1 : ({ s with tick := s.tick + 1 } : PubState) = s1
  have hgs1 : s1.groups = s.groups := by rw [← hS1]
  have hth1 : queueThread g.qid s1 = queueThread g.qid s := by
    rw [← hS1]
    exact queueThread_of_queues_eq s { s with tick := s.tick + 1 } rfl g.qid
  rw [hsplit, List.foldl_append, List.foldl_cons]
  have hgA : (gs₁.foldl (callStep noReact th c (s.tick + 1)) s1).groups = s.groups :=
    (foldCallStep_noReact_groups th c (s.tick + 1) gs₁ s1).trans hgs1
  have hthA : queueThread g.qid (gs₁.foldl (callStep noReact th c (s.tick + 1)) s1)
      = some th :=
    (foldCallStep_queueThread noReact th c (s.tick + 1) g.qid gs₁ s1).trans
      (hth1.trans hth)
  have hfindA : findGroup g.qid (gs₁.foldl (callStep noReact th c (s.tick + 1)) s1).groups
      = some g := by
    rw [hgA]
    exact hfind
  obtain ⟨hq, hinv⟩ := callStep_hit th c (s.tick + 1)
    (gs₁.foldl (callStep noReact th c (s.tick + 1)) s1) g hfindA hthA
  constructor
  · rw [foldCallStep_queueWork_untouched noReact th c (s.tick + 1) g.qid gs₂ _ hnotin₂]
    exact hq
  · intro e hm hts
    obtain ⟨d, hd⟩ := foldCallStep_inv_mono noReact th c (s.tick + 1) gs₂
      (callStep noReact th c (s.tick + 1)
        (gs₁.foldl (callStep noReact th c (s.tick + 1)) s1) g)
    rw [hd]
    exact List.mem_append_left _ (hinv e hm hts)

theorem call1Op_inline_drain (th S a c : Nat) (s : PubState) (g : Group)
    (hfg : findListenerGroup S s.groups = some g)
    (hnd : (s.groups.map (fun g => g.qid)).Nodup)
    (hf : g.entries.find? (fun e => e.listener == S) = some ⟨S, a⟩)
    (ha : a < s.tick)
    (hth : queueThread g.qid s = some th) :
    queueWork g.qid (call1Op noReact th S c s) = some []
    ∧ (S, c) ∈ (call1Op noReact th S c s).invocations := by
  have hmem : g ∈ s.groups := List.mem_of_find?_eq_some hfg
  have hfind : findGroup g.qid s.groups = some g := findGroup_of_mem_nodup s.groups g hmem hnd
  obtain ⟨ws0, hws0⟩ := queueThread_some_queueWork g.qid th s hth
  rw [call1Op_eq_group noReact th S c s g hfg]
  have hthP : queueThread g.qid (pushWork g.qid (Work.groupCall1 c s.tick S) s) = some th :=
    (queueThread_pushWork g.qid g.qid _ s).trans hth
  have hcond : (queueThread g.qid (pushWork g.qid (Work.groupCall1 c s.tick S) s)
      == some th) = true := by
    rw [hthP]
    exact beq_self_eq_true _
  rw [if_pos hcond]
  have hwsP : queueWork g.qid (pushWork g.qid (Work.groupCall1 c s.tick S) s)
      = some (ws0 ++ [Work.groupCall1 c s.tick S]) := by
    rw [queueWork_pushWork_self, hws0]
    rfl
  constructor
  · obtain ⟨_, _, _, hq, _⟩ :=
      drainQueue_frame noReact g.qid (pushWork g.qid (Work.groupCall1 c s.tick S) s)
    rw [hq, hwsP]
    rfl
  · rw [drainQueue_eq_some noReact g.qid _ _ hwsP, List.foldl_append, List.foldl_cons,
      List.foldl_nil, runWork_groupCall1]
    have hgY : findGroup g.qid (ws0.foldl (runWork noReact g.qid)
        (setQueueWork g.qid [] (pushWork g.qid (Work.groupCall1 c s.tick S) s))).groups
        = some g := by
      rw [show (ws0.foldl (runWork noReact g.qid)
          (setQueueWork g.qid [] (pushWork g.qid (Work.groupCall1 c s.tick S) s))).groups
          = s.groups from (foldRunWork_noReact_groups g.qid ws0 _).trans rfl]
      exact hfind
    rw [do_call1_eq_found noReact c s.tick S g.qid _ g ⟨S, a⟩ hgY hf ha]
    show (S, c) ∈ (ws0.foldl (runWork noReact g.qid)
        (setQueueWork g.qid [] (pushWork g.qid (Work.groupCall1 c s.tick S) s))).invocations
        ++ [(S, c)]
    exact List.mem_append_right _ (by simp)

theorem queueOp_never_drains (c : Nat) (s : PubState) :
    (queueOp c s).invocations = s.invocations
    ∧ (queueOp c s).released = s.released
    ∧ ∀ qid, ∃ d, queueWork qid (queueOp c s) = (queueWork qid s).map (fun ws => ws ++ d) := by
  obtain ⟨_, _, _, h4, h5⟩ := queueOp_frame c s
  refine ⟨h4, h5, ?_⟩
  intro qid
  refine ⟨List.replicate (s.groups.countP (fun g => g.qid == qid))
    (Work.groupCall c (s.tick + 1)), ?_⟩
  rw [queueOp_eq, foldQueueStep_queueWork,
    queueWork_of_queues_eq s { s with tick := s.tick + 1 } rfl]

theorem queue1Op_never_drains (l c : Nat) (s : PubState) :
    (queue1Op l c s).invocations = s.invocations
    ∧ ∀ qid, ∃ d, queueWork qid (queue1Op l c s) = (queueWork qid s).map (fun ws => ws ++ d) := by
  cases hg : findListenerGroup l s.groups with
  | none =>
    rw [queue1Op_eq_nogroup l c s hg]
    refine ⟨rfl, ?_⟩
    intro qid
    refine ⟨[], ?_⟩
    rw [show queueWork qid { s with released := s.released ++ [c] } = queueWork qid s from rfl]
    cases h : queueWork qid s <;> simp
  | some g =>
    rw [queue1Op_eq_group l c s g hg]
    refine ⟨rfl, ?_⟩
    intro qid
    by_cases hq : qid = g.qid
    · subst hq
      exact ⟨[Work.groupCall1 c s.tick l], queueWork_pushWork_self g.qid _ s⟩
    · refine ⟨[], ?_⟩
      rw [queueWork_pushWork_ne qid g.qid _ s hq]
      cases h : queueWork qid s <;> simp

theorem proxyUpdateStep_workAppend (k c t qid : Nat) (st : PubState) (pe : ProxyEntry) :
    ∃ d, queueWork qid (proxyUpdateStep k c t st pe)
      = (queueWork qid st).map (fun ws => ws ++ d) := by
  unfold proxyUpdateStep
  cases hp : getPending k pe.qid st.proxies with
  | none =>
    by_cases hq : qid = pe.qid
    · subst hq
      refine ⟨[Work.proxyCall k t], ?_⟩
      rw [queueWork_pushWork_self]
      rfl
    · refine ⟨[], ?_⟩
      rw [queueWork_pushWork_ne qid pe.qid _ _ hq]
      show queueWork qid st = _
      cases h : queueWork qid st <;> simp
  | some old =>
    refine ⟨[], ?_⟩
    show queueWork qid st = _
    cases h : queueWork qid st <;> simp

theorem foldProxyUpdateStep_workAppend (k c t qid : Nat) :
    ∀ (pes : List ProxyEntry) (st : PubState),
      ∃ d, queueWork qid (pes.foldl (proxyUpdateStep k c t) st)
        = (queueWork qid st).map (fun ws => ws ++ d) := by
  intro pes
  induction pes with
  | nil =>
    intro st
    refine ⟨[], ?_⟩
    cases h : queueWork qid st <;> simp [h]
  | cons pe pes ih =>
    intro st
    rw [List.foldl_cons]
    obtain ⟨d1, hd1⟩ := proxyUpdateStep_workAppend k c t qid st pe
    obtain ⟨d2, hd2⟩ := ih (proxyUpdateStep k c t st pe)
    refine ⟨d1 ++ d2, ?_⟩
    rw [hd2, hd1]
    cases h : queueWork qid st <;> simp

theorem proxyUpdate_workAppend (k c t qid : Nat) (s : PubState) :
    ∃ d, queueWork qid (proxyUpdate k c t s)
      = (queueWork qid s).map (fun ws => ws ++ d) := by
  unfold proxyUpdate
  cases hp : findProxy k s.proxies with
  | none =>
    refine ⟨[], ?_⟩
    cases h : queueWork qid s <;> simp [h]
  | some p => exact foldProxyUpdateStep_workAppend k c t qid p.entries s

theorem updateOp_never_drains (k c : Nat) (s : PubState) :
    (updateOp k c s).invocations = s.invocations
    ∧ ∀ qid, ∃ d, queueWork qid (updateOp k c s) = (queueWork qid s).map (fun ws => ws ++ d) := by
  refine ⟨(updateOp_frame k c s).2.2, ?_⟩
  intro qid
  cases hp : findProxy k s.proxies with
  | none =>
    rw [updateOp_create_eq k c s hp]
    obtain ⟨d, hd⟩ := proxyUpdate_workAppend k c (s.tick + 1) qid
      { s with
        tick := s.tick + 1
        proxies := s.proxies
          ++ [(⟨k, s.groups.map (fun (g : Group) => (⟨g.qid, none⟩ : ProxyEntry))⟩ : Proxy)] }
    exact ⟨d, hd.trans rfl⟩
  | some p =>
    rw [updateOp_nocreate_eq k c s p hp]
    obtain ⟨d, hd⟩ := proxyUpdate_workAppend k c (s.tick + 1) qid { s with tick := s.tick + 1 }
    exact ⟨d, hd.trans rfl⟩

/-- C5: inline-drain policy.  If `call` (broadcast) is invoked on a call
queue's servicing thread, the queue is fully drained before the publish
call returns — its pending work list is empty and every notification of
the broadcast for eligible subscribers on that queue is already in the
invocation log; the same holds for `call1` (targeted).  `queue`,
`queue1` and `update` never drain a call queue: they leave the
invocation log untouched and only ever append work to the queues. -/
theorem inline_drain_policy :
    (∀ (th c : Nat) (s : PubState) (g : Group),
        (s.groups.map (fun g => g.qid)).Nodup → g ∈ s.groups →
        queueThread g.qid s = some th →
        queueWork g.qid (callOp noReact th c s) = some []
        ∧ ∀ e ∈ g.entries, e.timestamp < s.tick + 1 →
            (e.listener, c) ∈ (callOp noReact th c s).invocations)
    ∧ (∀ (th S a c : Nat) (s : PubState) (g : Group),
        findListenerGroup S s.groups = some g →
        (s.groups.map (fun g => g.qid)).Nodup →
        g.entries.find? (fun e => e.listener == S) = some ⟨S, a⟩ →
        a < s.tick →
        queueThread g.qid s = some th →
        queueWork g.qid (call1Op noReact th S c s) = some []
        ∧ (S, c) ∈ (call1Op noReact th S c s).invocations)
    ∧ (∀ (c : Nat) (s : PubState),
        (queueOp c s).invocations = s.invocations
        ∧ ∀ qid, ∃ d, queueWork qid (queueOp c s) = (queueWork qid s).map (fun ws => ws ++ d))
    ∧ (∀ (l c : Nat) (s : PubState),
        (queue1Op l c s).invocations = s.invocations
        ∧ ∀ qid, ∃ d, queueWork qid (queue1Op l c s) = (queueWork qid s).map (fun ws => ws ++ d))
    ∧ (∀ (k c : Nat) (s : PubState),
        (updateOp k c s).invocations = s.invocations
        ∧ ∀ qid, ∃ d, queueWork qid (updateOp k c s)
            = (queueWork qid s).map (fun ws => ws ++ d)) :=
  ⟨fun th c s g hnd hmem hth => callOp_inline_drain th c s g hnd hmem hth,
   fun th S a c s g hfg hnd hf ha hth => call1Op_inline_drain th S a c s g hfg hnd hf ha hth,
   fun c s => ⟨(queueOp_never_drains c s).1, (queueOp_never_drains c s).2.2⟩,
   fun l c s => queue1Op_never_drains l c s,
   fun k c s => updateOp_never_drains k c s⟩

/-- C5 witness: queue 1 is serviced by thread 3; a `call` issued on
thread 3 leaves queue 1 empty and listener 7 already notified, and a
`call1` on thread 3 behaves likewise. -/
theorem inline_drain_policy_witness :
    (queueThread 1 (⟨0, [⟨1, [⟨7, 0⟩]⟩], [], [⟨1, 3, []⟩], [], []⟩ : PubState) = some 3)
    ∧ (queueWork 1 (callOp noReact 3 5
          (⟨0, [⟨1, [⟨7, 0⟩]⟩], [], [⟨1, 3, []⟩], [], []⟩ : PubState)) = some []
        ∧ ∀ e ∈ ([⟨7, 0⟩] : List Entry), e.timestamp < 0 + 1 →
            (e.listener, 5) ∈ (callOp noReact 3 5
              (⟨0, [⟨1, [⟨7, 0⟩]⟩], [], [⟨1, 3, []⟩], [], []⟩ : PubState)).invocations)
    ∧ (queueWork 1 (call1Op noReact 3 7 6
          (⟨1, [⟨1, [⟨7, 0⟩]⟩], [], [⟨1, 3, []⟩], [], []⟩ : PubState)) = some []
        ∧ (7, 6) ∈ (call1Op noReact 3 7 6
            (⟨1, [⟨1, [⟨7, 0⟩]⟩], [], [⟨1, 3, []⟩], [], []⟩ : PubState)).invocations) :=
  ⟨by decide,
   inline_drain_policy.1 3 5 (⟨0, [⟨1, [⟨7, 0⟩]⟩], [], [⟨1, 3, []⟩], [], []⟩ : PubState)
     ⟨1, [⟨7, 0⟩]⟩ (by decide) (by decide) (by decide),
   inline_drain_policy.2.1 3 7 0 6 (⟨1, [⟨1, [⟨7, 0⟩]⟩], [], [⟨1, 3, []⟩], [], []⟩ : PubState)
     ⟨1, [⟨7, 0⟩]⟩ (by decide) (by decide) (by decide) (by decide) (by decide)⟩

theorem getLastD_mem : ∀ (l : List Nat) (d : Nat), l ≠ [] → l.getLastD d ∈ l := by
  intro l
  induction l with
  | nil =>
    intro d h
    exact absurd rfl h
  | cons a l ih =>
    intro d _
    cases l with
    | nil => simp [List.getLastD_cons, List.getLastD_nil]
    | cons b t =>
      have hmem := ih a (by simp)
      rw [List.getLastD_cons]
      exact List.mem_cons_of_mem a hmem

theorem dropLast_ne_getLastD :
    ∀ (l : List Nat), l.Nodup → ∀ (d : Nat), ∀ c' ∈ l.dropLast, c' ≠ l.getLastD d := by
  intro l
  induction l with
  | nil =>
    intro _ d c' hc'
    simp at hc'
  | cons a l ih =>
    intro hnd d c' hc'
    cases l with
    | nil => simp at hc'
    | cons b t =>
      rw [List.nodup_cons] at hnd
      rw [List.dropLast_cons₂] at hc'
      rw [List.mem_cons] at hc'
      rw [List.getLastD_cons]
      rcases hc' with rfl | hc'
      · intro hh
        exact hnd.1 (by rw [hh]; exact getLastD_mem (b :: t) c' (by simp))
      · exact ih hnd.2 a c' hc'

theorem updateOp_singleton_empty (k c qid : Nat) (s : PubState)
    (hp : s.proxies = [⟨k, [⟨qid, none⟩]⟩]) :
    updateOp k c s
      = pushWork qid (Work.proxyCall k (s.tick + 1))
          { s with tick := s.tick + 1, proxies := [⟨k, [⟨qid, some c⟩]⟩] } := by
  have hfp : findProxy k s.proxies = some ⟨k, [⟨qid, none⟩]⟩ := by
    rw [hp]
    simp [findProxy]
  rw [updateOp_nocreate_eq k c s ⟨k, [⟨qid, none⟩]⟩ hfp]
  unfold proxyUpdate
  have hfp2 : findProxy k ({ s with tick := s.tick + 1 } : PubState).proxies
      = some ⟨k, [⟨qid, none⟩]⟩ := hfp
  rw [hfp2]
  show List.foldl (proxyUpdateStep k c (s.tick + 1)) { s with tick := s.tick + 1 }
      [⟨qid, none⟩] = _
  rw [List.foldl_cons, List.foldl_nil]
  unfold proxyUpdateStep
  have hgp : getPending k (⟨qid, none⟩ : ProxyEntry).qid
      ({ s with tick := s.tick + 1 } : PubState).proxies = none := by
    show getPending k qid s.proxies = none
    rw [hp]
    simp [getPending, findProxy]
  rw [hgp]
  have hsp : setPendingP k (⟨qid, none⟩ : ProxyEntry).qid (some c)
      ({ s with tick := s.tick + 1 } : PubState).proxies = [⟨k, [⟨qid, some c⟩]⟩] := by
    show setPendingP k qid (some c) s.proxies = _
    rw [hp]
    simp [setPendingP, setPendingEntries]
  rw [hsp]

theorem updateOp_singleton_full (k c qid c0 : Nat) (s : PubState)
    (hp : s.proxies = [⟨k, [⟨qid, some c0⟩]⟩]) :
    updateOp k c s
      = { s with
          tick := s.tick + 1
          proxies := [⟨k, [⟨qid, some c⟩]⟩]
          released := s.released ++ [c0] } := by
  have hfp : findProxy k s.proxies = some ⟨k, [⟨qid, some c0⟩]⟩ := by
    rw [hp]
    simp [findProxy]
  rw [updateOp_nocreate_eq k c s ⟨k, [⟨qid, some c0⟩]⟩ hfp]
  unfold proxyUpdate
  have hfp2 : findProxy k ({ s with tick := s.tick + 1 } : PubState).proxies
      = some ⟨k, [⟨qid, some c0⟩]⟩ := hfp
  rw [hfp2]
  show List.foldl (proxyUpdateStep k c (s.tick + 1)) { s with tick := s.tick + 1 }
      [⟨qid, some c0⟩] = _
  rw [List.foldl_cons, List.foldl_nil]
  unfold proxyUpdateStep
  have hgp : getPending k (⟨qid, some c0⟩ : ProxyEntry).qid
      ({ s with tick := s.tick + 1 } : PubState).proxies = some c0 := by
    show getPending k qid s.proxies = some c0
    rw [hp]
    simp [getPending, findProxy]
  rw [hgp]
  have hsp : setPendingP k (⟨qid, some c0⟩ : ProxyEntry).qid (some c)
      ({ s with tick := s.tick + 1 } : PubState).proxies = [⟨k, [⟨qid, some c⟩]⟩] := by
    show setPendingP k qid (some c) s.proxies = _
    rw [hp]
    simp [setPendingP, setPendingEntries]
  rw [hsp]

theorem updateOp_burst_full (k qid : Nat) :
    ∀ (cs : List Nat) (c0 : Nat) (s : PubState), s.proxies = [⟨k, [⟨qid, some c0⟩]⟩] →
      (cs.foldl (fun st c => updateOp k c st) s).tick = s.tick + cs.length
      ∧ (cs.foldl (fun st c => updateOp k c st) s).proxies
          = [⟨k, [⟨qid, some (cs.getLastD c0)⟩]⟩]
      ∧ (cs.foldl (fun st c => updateOp k c st) s).released
          = s.released ++ (c0 :: cs).dropLast
      ∧ (cs.foldl (fun st c => updateOp k c st) s).groups = s.groups
      ∧ (cs.foldl (fun st c => updateOp k c st) s).invocations = s.invocations
      ∧ (cs.foldl (fun st c => updateOp k c st) s).queues = s.queues := by
  intro cs
  induction cs with
  | nil =>
    intro c0 s hp
    exact ⟨rfl, by rw [List.foldl_nil, hp, List.getLastD_nil], by simp, rfl, rfl, rfl⟩
  | cons c cs ih =>
    intro c0 s hp
    rw [List.foldl_cons, updateOp_singleton_full k c qid c0 s hp]
    obtain ⟨i1, i2, i3, i4, i5, i6⟩ := ih c
      { s with
        tick := s.tick + 1
        proxies := [⟨k, [⟨qid, some c⟩]⟩]
        released := s.released ++ [c0] } rfl
    refine ⟨by rw [i1]; simp [Nat.add_assoc, Nat.add_comm 1 cs.length], ?_, ?_, i4, i5, i6⟩
    · rw [i2, List.getLastD_cons]
    · rw [i3]
      show (s.released ++ [c0]) ++ (c :: cs).dropLast = s.released ++ (c0 :: c :: cs).dropLast
      rw [List.dropLast_cons₂, List.append_assoc]
      rfl

/-- C2: coalescing is latest-wins.  For a burst of `update` calls of the
same kind against a Group between two drains (the queue starts freshly
drained and the Proxy's pending slot is empty): exactly one work unit is
enqueued for the Group during the whole burst; after the burst the
pending slot holds the Call that won the final atomic swap, and every
earlier Call of the burst has been released; draining then delivers
exactly one Call — the final-swap winner — to the Group's eligible
Entries, empties the queue and clears the slot, and (for distinct Calls)
none of the replaced Calls is ever executed. -/
theorem coalescing_latest_wins :
    ∀ (k qid : Nat) (cs : List Nat) (s : PubState) (g : Group),
      cs ≠ [] → cs.Nodup →
      s.proxies = [⟨k, [⟨qid, none⟩]⟩] →
      queueWork qid s = some [] →
      findGroup qid s.groups = some g →
      (queueWork qid (cs.foldl (fun st c => updateOp k c st) s)
          = some [Work.proxyCall k (s.tick + 1)]
        ∧ getPending k qid (cs.foldl (fun st c => updateOp k c st) s).proxies
          = some (cs.getLastD 0)
        ∧ (cs.foldl (fun st c => updateOp k c st) s).invocations = s.invocations
        ∧ ∀ c' ∈ cs.dropLast, c' ∈ (cs.foldl (fun st c => updateOp k c st) s).released)
      ∧ ((drainQueue noReact qid (cs.foldl (fun st c => updateOp k c st) s)).invocations
          = s.invocations
            ++ (g.entries.filter (fun e => e.timestamp < s.tick + 1)).map
                (fun e => (e.listener, cs.getLastD 0))
        ∧ queueWork qid (drainQueue noReact qid (cs.foldl (fun st c => updateOp k c st) s))
            = some []
        ∧ getPending k qid (drainQueue noReact qid
            (cs.foldl (fun st c => updateOp k c st) s)).proxies = none
        ∧ ∀ c' ∈ cs.dropLast, ∀ l,
            (l, c') ∈ (drainQueue noReact qid
              (cs.foldl (fun st c => updateOp k c st) s)).invocations →
            (l, c') ∈ s.invocations) := by
  intro k qid cs s g hne hnd hp hw hg
  obtain ⟨c1, rest, rfl⟩ := List.exists_cons_of_ne_nil hne
  have hfold : (c1 :: rest).foldl (fun st c => updateOp k c st) s
      = rest.foldl (fun st c => updateOp k c st)
          (pushWork qid (Work.proxyCall k (s.tick + 1))
            { s with tick := s.tick + 1, proxies := [⟨k, [⟨qid, some c1⟩]⟩] }) := by
    rw [List.foldl_cons]
    show rest.foldl (fun st c => updateOp k c st) (updateOp k c1 s) = _
    rw [updateOp_singleton_empty k c1 qid s hp]
  rw [hfold]
  obtain ⟨b1, b2, b3, b4, b5, b6⟩ := updateOp_burst_full k qid rest c1
    (pushWork qid (Work.proxyCall k (s.tick + 1))
      { s with tick := s.tick + 1, proxies := [⟨k, [⟨qid, some c1⟩]⟩] }) rfl
  have hwin : (c1 :: rest).getLastD 0 = rest.getLastD c1 := List.getLastD_cons 0 c1 rest
  have hqwP : queueWork qid (pushWork qid (Work.proxyCall k (s.tick + 1))
      { s with tick := s.tick + 1, proxies := [⟨k, [⟨qid, some c1⟩]⟩] })
      = some [Work.proxyCall k (s.tick + 1)] := by
    rw [queueWork_pushWork_self,
      queueWork_of_queues_eq s
        { s with tick := s.tick + 1, proxies := [⟨k, [⟨qid, some c1⟩]⟩] } rfl qid, hw]
    rfl
  have hqwF : queueWork qid (rest.foldl (fun st c => updateOp k c st)
      (pushWork qid (Work.proxyCall k (s.tick + 1))
        { s with tick := s.tick + 1, proxies := [⟨k, [⟨qid, some c1⟩]⟩] }))
      = some [Work.proxyCall k (s.tick + 1)] := by
    rw [queueWork_of_queues_eq _ _ b6 qid]
    exact hqwP
  have hgetF : getPending k qid (rest.foldl (fun st c => updateOp k c st)
      (pushWork qid (Work.proxyCall k (s.tick + 1))
        { s with tick := s.tick + 1, proxies := [⟨k, [⟨qid, some c1⟩]⟩] })).proxies
      = some (rest.getLastD c1) := by
    rw [b2]
    simp [getPending, findProxy]
  have hsp1 : setPendingP k qid none (rest.foldl (fun st c => updateOp k c st)
      (pushWork qid (Work.proxyCall k (s.tick + 1))
        { s with tick := s.tick + 1, proxies := [⟨k, [⟨qid, some c1⟩]⟩] })).proxies
      = [⟨k, [⟨qid, none⟩]⟩] := by
    rw [b2]
    simp [setPendingP, setPendingEntries]
  refine ⟨⟨hqwF, by rw [hwin]; exact hgetF, b5, ?_⟩, ?_⟩
  · intro c' hc'
    rw [b3]
    exact List.mem_append_right _ hc'
  · have hdr : drainQueue noReact qid (rest.foldl (fun st c => updateOp k c st)
        (pushWork qid (Work.proxyCall k (s.tick + 1))
          { s with tick := s.tick + 1, proxies := [⟨k, [⟨qid, some c1⟩]⟩] }))
        = doProxyWork noReact k (s.tick + 1) qid
            (setQueueWork qid [] (rest.foldl (fun st c => updateOp k c st)
              (pushWork qid (Work.proxyCall k (s.tick + 1))
                { s with tick := s.tick + 1, proxies := [⟨k, [⟨qid, some c1⟩]⟩] }))) := by
      rw [drainQueue_eq_some noReact qid _ _ hqwF, List.foldl_cons, List.foldl_nil,
        runWork_proxyCall]
    have hp0 : getPending k qid
        (setQueueWork qid [] (rest.foldl (fun st c => updateOp k c st)
          (pushWork qid (Work.proxyCall k (s.tick + 1))
            { s with tick := s.tick + 1, proxies := [⟨k, [⟨qid, some c1⟩]⟩] }))).proxies
        = some (rest.getLastD c1) := hgetF
    rw [hdr, doProxyWork_eq_some noReact k (s.tick + 1) qid _ (rest.getLastD c1) hp0]
    rw [do_call_noReact_eq (rest.getLastD c1) (s.tick + 1) qid g _ (by
      show findGroup qid (rest.foldl (fun st c => updateOp k c st)
        (pushWork qid (Work.proxyCall k (s.tick + 1))
          { s with tick := s.tick + 1, proxies := [⟨k, [⟨qid, some c1⟩]⟩] })).groups = some g
      rw [b4]
      exact hg)]
    refine ⟨?_, ?_, ?_, ?_⟩
    · show (rest.foldl (fun st c => updateOp k c st)
          (pushWork qid (Work.proxyCall k (s.tick + 1))
            { s with tick := s.tick + 1, proxies := [⟨k, [⟨qid, some c1⟩]⟩] })).invocations
          ++ (g.entries.filter (fun e => e.timestamp < s.tick + 1)).map
              (fun e => (e.listener, rest.getLastD c1))
          = s.invocations
            ++ (g.entries.filter (fun e => e.timestamp < s.tick + 1)).map
                (fun e => (e.listener, (c1 :: rest).getLastD 0))
      rw [b5, hwin]
      rfl
    · show queueWork qid (setQueueWork qid [] (rest.foldl (fun st c => updateOp k c st)
          (pushWork qid (Work.proxyCall k (s.tick + 1))
            { s with tick := s.tick + 1, proxies := [⟨k, [⟨qid, some c1⟩]⟩] }))) = some []
      rw [queueWork_setQueueWork_self, hqwF]
      rfl
    · show getPending k qid (setPendingP k qid none
          (rest.foldl (fun st c => updateOp k c st)
            (pushWork qid (Work.proxyCall k (s.tick + 1))
              { s with tick := s.tick + 1, proxies := [⟨k, [⟨qid, some c1⟩]⟩] })).proxies) = none
      rw [hsp1]
      simp [getPending, findProxy]
    · intro c' hc' l hmem
      have hmem2 : (l, c') ∈ (rest.foldl (fun st c => updateOp k c st)
          (pushWork qid (Work.proxyCall k (s.tick + 1))
            { s with tick := s.tick + 1, proxies := [⟨k, [⟨qid, some c1⟩]⟩] })).invocations
          ++ (g.entries.filter (fun e => e.timestamp < s.tick + 1)).map
              (fun e => (e.listener, rest.getLastD c1)) := hmem
      rw [b5] at hmem2
      rcases List.mem_append.mp hmem2 with h | h
      · exact h
      · exfalso
        rw [List.mem_map] at h
        obtain ⟨e, _, hpair⟩ := h
        have hcW : c' = rest.getLastD c1 := (congrArg Prod.snd hpair).symm
        have hneW : c' ≠ (c1 :: rest).getLastD 0 :=
          dropLast_ne_getLastD (c1 :: rest) hnd 0 c' hc'
        rw [hwin] at hneW
        exact hneW hcW

theorem coalescing_latest_wins_witness :
    ([5, 6, 9] : List Nat).Nodup
    ∧ ((queueWork 1 (([5, 6, 9] : List Nat).foldl (fun st c => updateOp 4 c st)
      (⟨0, [⟨1, [⟨7, 0⟩]⟩], [⟨4, [⟨1, none⟩]⟩], [⟨1, 0, []⟩], [], []⟩ : PubState))
          = some [Work.proxyCall 4 ((⟨0, [⟨1, [⟨7, 0⟩]⟩], [⟨4, [⟨1, none⟩]⟩], [⟨1, 0, []⟩], [], []⟩ : PubState).tick + 1)]
        ∧ getPending 4 1 (([5, 6, 9] : List Nat).foldl (fun st c => updateOp 4 c st)
      (⟨0, [⟨1, [⟨7, 0⟩]⟩], [⟨4, [⟨1, none⟩]⟩], [⟨1, 0, []⟩], [], []⟩ : PubState)).proxies
          = some (([5, 6, 9] : List Nat).getLastD 0)
        ∧ (([5, 6, 9] : List Nat).foldl (fun st c => updateOp 4 c st)
      (⟨0, [⟨1, [⟨7, 0⟩]⟩], [⟨4, [⟨1, none⟩]⟩], [⟨1, 0, []⟩], [], []⟩ : PubState)).invocations = (⟨0, [⟨1, [⟨7, 0⟩]⟩], [⟨4, [⟨1, none⟩]⟩], [⟨1, 0, []⟩], [], []⟩ : PubState).invocations
        ∧ ∀ c' ∈ ([5, 6, 9] : List Nat).dropLast,
            c' ∈ (([5, 6, 9] : List Nat).foldl (fun st c => updateOp 4 c st)
      (⟨0, [⟨1, [⟨7, 0⟩]⟩], [⟨4, [⟨1, none⟩]⟩], [⟨1, 0, []⟩], [], []⟩ : PubState)).released)
      ∧ ((drainQueue noReact 1 (([5, 6, 9] : List Nat).foldl (fun st c => updateOp 4 c st)
      (⟨0, [⟨1, [⟨7, 0⟩]⟩], [⟨4, [⟨1, none⟩]⟩], [⟨1, 0, []⟩], [], []⟩ : PubState))).invocations
          = (⟨0, [⟨1, [⟨7, 0⟩]⟩], [⟨4, [⟨1, none⟩]⟩], [⟨1, 0, []⟩], [], []⟩ : PubState).invocations
            ++ ((⟨1, [⟨7, 0⟩]⟩ : Group).entries.filter
                  (fun e => e.timestamp < (⟨0, [⟨1, [⟨7, 0⟩]⟩], [⟨4, [⟨1, none⟩]⟩], [⟨1, 0, []⟩], [], []⟩ : PubState).tick + 1)).map
                (fun e => (e.listener, ([5, 6, 9] : List Nat).getLastD 0))
        ∧ queueWork 1 (drainQueue noReact 1 (([5, 6, 9] : List Nat).foldl (fun st c => updateOp 4 c st)
      (⟨0, [⟨1, [⟨7, 0⟩]⟩], [⟨4, [⟨1, none⟩]⟩], [⟨1, 0, []⟩], [], []⟩ : PubState)))
            = some []
        ∧ getPending 4 1 (drainQueue noReact 1 (([5, 6, 9] : List Nat).foldl (fun st c => updateOp 4 c st)
      (⟨0, [⟨1, [⟨7, 0⟩]⟩], [⟨4, [⟨1, none⟩]⟩], [⟨1, 0, []⟩], [], []⟩ : PubState))).proxies = none
        ∧ ∀ c' ∈ ([5, 6, 9] : List Nat).dropLast, ∀ l,
            (l, c') ∈ (drainQueue noReact 1 (([5, 6, 9] : List Nat).foldl (fun st c => updateOp 4 c st)
      (⟨0, [⟨1, [⟨7, 0⟩]⟩], [⟨4, [⟨1, none⟩]⟩], [⟨1, 0, []⟩], [], []⟩ : PubState))).invocations →
            (l, c') ∈ (⟨0, [⟨1, [⟨7, 0⟩]⟩], [⟨4, [⟨1, none⟩]⟩], [⟨1, 0, []⟩], [], []⟩ : PubState).invocations)) :=
  ⟨by decide,
   coalescing_latest_wins 4 1 [5, 6, 9] (⟨0, [⟨1, [⟨7, 0⟩]⟩], [⟨4, [⟨1, none⟩]⟩], [⟨1, 0, []⟩], [], []⟩ : PubState) ⟨1, [⟨7, 0⟩]⟩
     (by decide) (by decide) (by decide) (by decide) (by decide)⟩

end VF
